import Mathlib

/-!
# youtube-feeds: the fetch / aggregate / rank pipeline of `main.go`

A shallow embedding of `main.go` and the properties of its pipeline.

* The standard-library calls whose results come from outside the program
  (`http.Get` with `ioutil.ReadAll`, `xml.Unmarshal`, `time.Parse`,
  `Time.Format`) are the fields of `World`.
* `time.Time` is reduced to the instant it denotes: `Before` and `After`
  compare instants only, and `In` keeps the instant.
* A run-time panic is the value `none`.
-/

namespace YoutubeFeeds

/-! ## Data model (`main.go` lines 34-63) -/

/-- The constant `defaultEntriesPerChannel`. -/
def defaultEntriesPerChannel : Int := 5

/-- The constant `lastNDays`. -/
def lastNDays : Int := 7

/-- A `time.Time`, reduced to its instant (nanoseconds counted from the zero time). -/
structure Time where
  nanos : Int
deriving DecidableEq, Repr

/-- The method `Time.Before`: the instant is strictly earlier. -/
def Time.Before (t u : Time) : Bool := decide (t.nanos < u.nanos)

/-- The method `Time.After`: the instant is strictly later. -/
def Time.After (t u : Time) : Bool := decide (u.nanos < t.nanos)

/-- The struct `channel`. -/
structure channel where
  name : String
  url : String
deriving DecidableEq, Repr

/-- The struct `youtubeVideo`. -/
structure youtubeVideo where
  Account : String
  Channel : String
  Title : String
  VideoID : String
  DurationStr : String
  TimestampStr : String
  timestamp : Time
deriving DecidableEq, Repr

/-- The struct `entry` declared inside `fetch`. -/
structure entry where
  Title : String
  VideoID : String
  Published : String
deriving DecidableEq, Repr

/-- What `http.Get` followed by `ioutil.ReadAll` can produce: a transport
error, or a response with its status code and its body (`none` when the body
cannot be read). -/
inductive HttpReply where
  | transportError : HttpReply
  | response (status : Int) (body : Option String) : HttpReply
deriving DecidableEq, Repr

/-- The outside of the program, as seen through the standard library. -/
structure World where
  /-- The reply `http.Get` obtains for a URL. -/
  httpGet : String → HttpReply
  /-- The entries `xml.Unmarshal` reads from a body, `none` on an error. -/
  xmlUnmarshal : String → Option (List entry)
  /-- The result of `time.Parse(time.RFC3339, s)`, `none` on an error. -/
  timeParse : String → Option Time
  /-- The text `t.In(location).Format("2006-01-02 15:04:05")`. -/
  timeFormat : Time → String

/-! ## `strconv.Atoi` and `fmt.Sprintf("%02d")` -/

/-- The two errors of `strconv`. -/
inductive NumError where
  | syntaxError : NumError
  | rangeError : NumError
deriving DecidableEq, Repr

/-- The digit loop of `strconv.ParseUint(s, 10, 64)`: the value read so far is
`n`; a byte that is no decimal digit is a syntax error with value 0, a value
that leaves 64 bits is a range error with the largest value. -/
def parseUintLoop : List Char → Nat → Nat × Option NumError
  | [], n => (n, none)
  | c :: cs, n =>
    if c.isDigit then
      if n ≥ (2 ^ 64 - 1) / 10 + 1 then (2 ^ 64 - 1, some .rangeError)
      else
        let n1 := n * 10 + (c.toNat - 48)
        if n1 > 2 ^ 64 - 1 then (2 ^ 64 - 1, some .rangeError)
        else parseUintLoop cs n1
    else (0, some .syntaxError)

/-- The function `strconv.ParseUint(s, 10, 64)`. -/
def ParseUint (s : List Char) : Nat × Option NumError :=
  match s with
  | [] => (0, some .syntaxError)
  | _ => parseUintLoop s 0

/-- The function `strconv.ParseInt(s, 10, 0)` on a 64-bit platform. -/
def ParseInt (s : List Char) : Int × Option NumError :=
  match s with
  | [] => (0, some .syntaxError)
  | c :: cs =>
    let neg := c == '-'
    let digits := if c == '+' || c == '-' then cs else c :: cs
    match ParseUint digits with
    | (_, some .syntaxError) => (0, some .syntaxError)
    | (un, _) =>
      if !neg && un ≥ 2 ^ 63 then (2 ^ 63 - 1, some .rangeError)
      else if neg && un > 2 ^ 63 then (-(2 ^ 63), some .rangeError)
      else (if neg then -(un : Int) else (un : Int), none)

/-- The function `strconv.Atoi`: the value and the error, both of which the
caller receives. Its fast path for short strings agrees with `ParseInt`. -/
def Atoi (s : String) : Int × Option NumError := ParseInt s.toList

/-- The verb `%02d` of `fmt.Sprintf`: decimal, padded with zeros to width 2,
the sign counting toward the width. -/
def sprintf02d (n : Int) : String :=
  if n < 0 then "-" ++ toString (-n).toNat
  else if n < 10 then "0" ++ toString n.toNat
  else toString n.toNat

/-! ## `getDurationStr` (`main.go` lines 124-151) -/

/-- A hexadecimal digit, the class `[0-9A-Fa-f]`. -/
def isHexDigit (c : Char) : Bool :=
  c.isDigit || ('A' ≤ c && c ≤ 'F') || ('a' ≤ c && c ≤ 'f')

/-- One `%[0-9A-Fa-f]{2}` at the head of the text: the group and the rest. -/
def matchPercent : List Char → Option (List Char × List Char)
  | '%' :: a :: b :: rest =>
    if isHexDigit a && isHexDigit b then some (['%', a, b], rest) else none
  | _ => none

/-- The text after a literal prefix, `none` when the text does not start with it. -/
def dropLiteral : List Char → List Char → Option (List Char)
  | [], s => some s
  | _ :: _, [] => none
  | p :: ps, c :: cs => if p == c then dropLiteral ps cs else none

/-- A match of `lengthSeconds(%[0-9A-Fa-f]{2}){3}([^%]+)` that starts at the
head of the text: the whole match, group 1 (its last repetition) and group 2
(the longest run of characters other than `%`, which must not be empty). -/
def matchHere (s : List Char) : Option (List String) :=
  match dropLiteral "lengthSeconds".toList s with
  | none => none
  | some r0 =>
    match matchPercent r0 with
    | none => none
    | some (g1, r1) =>
      match matchPercent r1 with
      | none => none
      | some (g2, r2) =>
        match matchPercent r2 with
        | none => none
        | some (g3, r3) =>
          let tail := r3.takeWhile (fun c => c != '%')
          if tail.isEmpty then none
          else some [String.mk ("lengthSeconds".toList ++ g1 ++ g2 ++ g3 ++ tail),
                     String.mk g3, String.mk tail]

/-- The result of `re.FindStringSubmatch` for the pattern of `getDurationStr`:
the leftmost match with its groups, and the nil slice when there is none. -/
def FindStringSubmatch : List Char → List String
  | [] => []
  | c :: cs =>
    match matchHere (c :: cs) with
    | some res => res
    | none => FindStringSubmatch cs

/-- The function `getDurationStr`; `none` is the index-out-of-range panic of
`res[len(res)-1]` on a nil `res`. -/
def getDurationStr (w : World) (videoID : String) : Option String :=
  match w.httpGet ("http://youtube.com/get_video_info?video_id=" ++ videoID) with
  | .transportError => some ""
  | .response status body =>
    if status < 200 || status ≥ 400 then some ""
    else
      match body with
      | none => some ""
      | some body =>
        let res := FindStringSubmatch body.toList
        match res.getLast? with
        | none => none
        | some last =>
          let dur := (Atoi last).1
          let sec := dur.tmod 60
          let dur := dur.tdiv 60
          let min := dur.tmod 60
          let dur := dur.tdiv 60
          if dur > 0 then
            some (sprintf02d dur ++ ":" ++ sprintf02d min ++ ":" ++ sprintf02d sec)
          else some (sprintf02d min ++ ":" ++ sprintf02d sec)

/-! ## `parseTimestamp` and `fetch` (`main.go` lines 114-122 and 153-217) -/

/-- The method `parseTimestamp`: on success the video with its parsed
timestamp and its reformatted timestamp string, `none` on a parse error. -/
def youtubeVideo.parseTimestamp (w : World) (y : youtubeVideo) : Option youtubeVideo :=
  match w.timeParse y.TimestampStr with
  | none => none
  | some datetime =>
    some { y with timestamp := datetime, TimestampStr := w.timeFormat datetime }

/-- How a run of `fetch` ended. -/
inductive Stop where
  /-- A `return` before the loop: the request failed, the status was outside
  200..399, the body could not be read or could not be unmarshalled. -/
  | noFeed : Stop
  /-- The range ran out of entries. -/
  | exhausted : Stop
  /-- The `break` of `idx >= maxEntries`. -/
  | maxReached : Stop
  /-- The `break` of `yv.timestamp.Before(*timestampCutoff)`. -/
  | cutoff : Stop
  /-- A panic inside `getDurationStr`. -/
  | fault : Stop
deriving DecidableEq, Repr

/-- What one run of `fetch` does that can be seen from outside: the videos it
sends on `youtubeVideoChan`, in order; the video ids it calls
`getDurationStr` with, in order; the video ids it logs a timestamp parsing
error for, in order; and how its loop ended. -/
structure FetchRun where
  sent : List youtubeVideo
  lookups : List String
  skipped : List String
  stop : Stop
deriving DecidableEq, Repr

/-- The run that does nothing and ends with `stop`. -/
def FetchRun.halt (stop : Stop) : FetchRun :=
  { sent := [], lookups := [], skipped := [], stop := stop }

/-- The statement `if fetchDuration { yv.DurationStr = getDurationStr(item.VideoID) }`:
the duration string the video gets, `none` when the call panics. -/
def lookupDuration (w : World) (fetchDuration : Bool) (videoID : String) : Option String :=
  if fetchDuration then getDurationStr w videoID else some ""

/-- The calls of `getDurationStr` that statement makes. -/
def lookedUp (fetchDuration : Bool) (videoID : String) : List String :=
  if fetchDuration then [videoID] else []

/-- The video the loop fills in for an entry before it parses the timestamp. -/
def newVideo (account : String) (ch : channel) (item : entry) (dur : String) : youtubeVideo :=
  { Account := account, Channel := ch.name, Title := item.Title,
    VideoID := item.VideoID, DurationStr := dur,
    TimestampStr := item.Published, timestamp := ⟨0⟩ }

/-- The video a successful `parseTimestamp` leaves in `yv`. -/
def parsedVideo (w : World) (account : String) (ch : channel) (item : entry) (dur : String)
    (t : Time) : youtubeVideo :=
  { newVideo account ch item dur with timestamp := t, TimestampStr := w.timeFormat t }

/-- The loop `for idx, item := range f.Entries` of `fetch`, from index `idx`
on, over the entries that remain. -/
def fetchLoop (w : World) (account : String) (ch : channel) (timestampCutoff : Time)
    (maxEntries : Int) (fetchDuration : Bool) : Nat → List entry → FetchRun
  | _, [] => FetchRun.halt .exhausted
  | idx, item :: rest =>
    if (idx : Int) ≥ maxEntries then FetchRun.halt .maxReached
    else
      match lookupDuration w fetchDuration item.VideoID with
      | none => { FetchRun.halt .fault with lookups := lookedUp fetchDuration item.VideoID }
      | some dur =>
        match (newVideo account ch item dur).parseTimestamp w with
        | none =>
          let r := fetchLoop w account ch timestampCutoff maxEntries fetchDuration (idx + 1) rest
          { r with lookups := lookedUp fetchDuration item.VideoID ++ r.lookups,
                   skipped := item.VideoID :: r.skipped }
        | some yv =>
          if yv.timestamp.Before timestampCutoff then
            { FetchRun.halt .cutoff with lookups := lookedUp fetchDuration item.VideoID }
          else
            let r := fetchLoop w account ch timestampCutoff maxEntries fetchDuration (idx + 1) rest
            { r with sent := yv :: r.sent,
                     lookups := lookedUp fetchDuration item.VideoID ++ r.lookups }

/-- The function `fetch` without its `WaitGroup`: the request for the feed,
the checks of the reply, the unmarshalling and the loop. A failed request, a
status outside 200..399, an unreadable body and an unmarshalling error all
return with nothing sent. -/
def fetch (w : World) (account : String) (ch : channel) (timestampCutoff : Time)
    (maxEntries : Int) (fetchDuration : Bool) : FetchRun :=
  match w.httpGet ch.url with
  | .transportError => FetchRun.halt .noFeed
  | .response status body =>
    if status < 200 || status ≥ 400 then FetchRun.halt .noFeed
    else
      match body with
      | none => FetchRun.halt .noFeed
      | some body =>
        match w.xmlUnmarshal body with
        | none => FetchRun.halt .noFeed
        | some entries =>
          fetchLoop w account ch timestampCutoff maxEntries fetchDuration 0 entries


/-! ## The ranking: `youtubeVideoSlice` (`main.go` lines 65-75) and `sort.Sort` -/

/-- The type `youtubeVideoSlice`. -/
abbrev youtubeVideoSlice := List youtubeVideo

/-- The method `Len`. -/
def youtubeVideoSlice.Len (s : youtubeVideoSlice) : Int := s.length

/-- The method `Less`: `s[i].timestamp.After(s[j].timestamp)`; `none` is the
panic of an index out of range. -/
def youtubeVideoSlice.Less (s : youtubeVideoSlice) (i j : Nat) : Option Bool :=
  match s[i]?, s[j]? with
  | some a, some b => some (a.timestamp.After b.timestamp)
  | _, _ => none

/-- The method `Swap`: `s[i], s[j] = s[j], s[i]`; `none` is the panic of an
index out of range. -/
def youtubeVideoSlice.Swap (s : youtubeVideoSlice) (i j : Nat) : Option youtubeVideoSlice :=
  match s[i]?, s[j]? with
  | some a, some b => some ((s.set i b).set j a)
  | _, _ => none

/-- The loop of `sort.IsSorted` from index `i` down: no `Less(i, i-1)` holds. -/
def isSortedFrom (s : youtubeVideoSlice) : Nat → Bool
  | 0 => true
  | i + 1 => if s.Less (i + 1) i = some true then false else isSortedFrom s i

/-- The function `sort.IsSorted` on a `youtubeVideoSlice`. -/
def IsSorted (s : youtubeVideoSlice) : Bool := isSortedFrom s (s.Len - 1).toNat

/-- A sequence of `Swap` calls, carried out in order. -/
def applySwaps : youtubeVideoSlice → List (Nat × Nat) → Option youtubeVideoSlice
  | s, [] => some s
  | s, (i, j) :: ops =>
    match s.Swap i j with
    | none => none
    | some s' => applySwaps s' ops

/-- What `sort.Sort(youtubeVideoSlice(s))` can leave in the slice. `sort.Sort`
belongs to the standard library; it reads the slice through `Len` and `Less`
only, changes it through `Swap` only, leaves it sorted as `sort.IsSorted`
reports, and is documented as not stable. Which calls of `Swap` it makes
depends on the version of the library, so every sequence of calls that ends
in a sorted slice is admitted. -/
def SortOutcome (s t : youtubeVideoSlice) : Prop :=
  ∃ ops : List (Nat × Nat), applySwaps s ops = some t ∧ IsSorted t = true

/-! ## The arguments of `main` (`main.go` lines 262-297) -/

/-- The settings `main` derives from its arguments. -/
structure Settings where
  account : String
  checkAllIntoOne : Bool
  entries : Int
  fetchDuration : Bool
deriving DecidableEq, Repr

/-- The loop over `accountsFilenames` that sets `account`; the list holds the
`filepath.Base` of each file name. -/
def findAccount (arg1 : String) : List String → String
  | [] => ""
  | b :: bs =>
    if arg1 = b then arg1
    else if arg1 ++ "#" = b then arg1 ++ "#"
    else findAccount arg1 bs

/-- The argument handling of `main`: `none` when `main` prints the help text
or reports that the account is unknown, and otherwise the settings with which
it goes on; `entries` and `fetchDuration` are what it passes to every `fetch`. -/
def mainSettings (osArgs : List String) (accountBases : List String) : Option Settings :=
  if 2 ≤ osArgs.length ∧ osArgs.length ≤ 4 then
    let arg1 := osArgs.getD 1 ""
    let account := findAccount arg1 accountBases
    if account = "" ∧ arg1 ≠ "all" then none
    else
      let checkAllIntoOne := decide (account = "")
      let entries :=
        if osArgs.length = 3 then
          match Atoi (osArgs.getD 2 "") with
          | (a2, none) => a2
          | (_, some _) => defaultEntriesPerChannel
        else defaultEntriesPerChannel
      let fetchDuration :=
        if osArgs.length = 4 then decide (osArgs.getD 3 "" = "true") else false
      some { account := account, checkAllIntoOne := checkAllIntoOne,
             entries := entries, fetchDuration := fetchDuration }
  else none

/-! ## The collection loop of `main` (`main.go` lines 327-352) -/

/-- One `fetch` goroutine: the videos its loop has still to send, and whether
it has returned, which runs its deferred `wg.Done()`. -/
structure Fetcher where
  toSend : List youtubeVideo
  returned : Bool
deriving DecidableEq, Repr

/-- The state shared by the goroutines of `main`: the fetchers, the one slot
of the buffer of `youtubeVideoChan`, the counter of the `WaitGroup`, whether
`done` is closed, the `Videos` of every account in `youtubeAccountsMap`, the
variable `isDone`, the indices of the fetchers whose loop ends in a panic of
`getDurationStr`, and whether such a panic has ended the process. -/
structure Pipeline where
  fetchers : List Fetcher
  chanBuf : Option youtubeVideo
  wg : Nat
  doneClosed : Bool
  buckets : List (String × List youtubeVideo)
  isDone : Bool
  panics : List Nat
  crashed : Bool
deriving DecidableEq, Repr

/-- The steps of the goroutines. -/
inductive Action where
  /-- Fetcher `i` executes `youtubeVideoChan <- &yv`. -/
  | send (i : Nat) : Action
  /-- Fetcher `i` leaves its loop: it returns and its `wg.Done()` runs, or,
  when its loop ends in a panic, the panic, which nothing recovers, ends the
  process. -/
  | ret (i : Nat) : Action
  /-- The goroutine `wg.Wait(); close(done)` closes `done`. -/
  | close : Action
  /-- The `select` of `main` takes the case `vid := <-youtubeVideoChan`. -/
  | recv : Action
  /-- The `select` of `main` takes the case `<-done`. -/
  | takeDone : Action
deriving DecidableEq, Repr

/-- The statement `youtubeAccountsMap[vid.Account].Videos = append(..., *vid)`;
`none` is the nil dereference for an account that has no entry in the map. -/
def bucketAppend (v : youtubeVideo) :
    List (String × List youtubeVideo) → Option (List (String × List youtubeVideo))
  | [] => none
  | (a, vs) :: rest =>
    if a = v.Account then some ((a, vs ++ [v]) :: rest)
    else
      match bucketAppend v rest with
      | none => none
      | some rest' => some ((a, vs) :: rest')

/-- One step, `none` when the step cannot be taken in the state. A send
needs the buffer slot of the channel free (the channel has capacity 1); `done`
is closed once the counter is 0; the `select` may take either case that is
ready; once a panic has ended the process nothing runs. -/
def step (p : Pipeline) (a : Action) : Option Pipeline :=
  if p.crashed then none
  else
    match a with
    | .send i =>
      match p.fetchers[i]?, p.chanBuf with
      | some ⟨v :: rest, false⟩, none =>
        some { p with fetchers := p.fetchers.set i ⟨rest, false⟩, chanBuf := some v }
      | _, _ => none
    | .ret i =>
      match p.fetchers[i]? with
      | some ⟨[], false⟩ =>
        if i ∈ p.panics then some { p with crashed := true }
        else some { p with fetchers := p.fetchers.set i ⟨[], true⟩, wg := p.wg - 1 }
      | _ => none
    | .close =>
      if p.wg = 0 ∧ p.doneClosed = false then some { p with doneClosed := true } else none
    | .recv =>
      match p.isDone, p.chanBuf with
      | false, some v =>
        match bucketAppend v p.buckets with
        | none => none
        | some buckets' => some { p with chanBuf := none, buckets := buckets' }
      | _, _ => none
    | .takeDone =>
      if p.isDone = false ∧ p.doneClosed = true then some { p with isDone := true } else none

/-- A sequence of steps. -/
def runSteps : Pipeline → List Action → Option Pipeline
  | p, [] => some p
  | p, a :: as =>
    match step p a with
    | none => none
    | some p' => runSteps p' as

/-- The state in which the collection loop starts: one fetcher for each
target with the videos its `fetch` sends, the counter at the number of
fetchers, an empty bucket for every account; the fetchers whose run ends in a
panic are those that end the process when they have sent their videos. -/
def startPipeline (accounts : List String) (runs : List FetchRun) : Pipeline :=
  { fetchers := runs.map (fun r => ⟨r.sent, false⟩),
    chanBuf := none,
    wg := runs.length,
    doneClosed := false,
    buckets := accounts.map (fun a => (a, [])),
    isDone := false,
    panics := (List.range runs.length).filter
      (fun i => decide ((runs[i]?).map (fun r => r.stop) = some Stop.fault)),
    crashed := false }

/-- The number of videos in the buckets. -/
def collectedCount (p : Pipeline) : Nat := (p.buckets.map (fun b => b.2.length)).sum

/-- The number of videos in the buffer of `youtubeVideoChan`. -/
def bufferedCount (p : Pipeline) : Nat :=
  match p.chanBuf with
  | none => 0
  | some _ => 1

/-- The number of videos the fetchers have still to send. -/
def pendingCount (p : Pipeline) : Nat := (p.fetchers.map (fun f => f.toSend.length)).sum

/-- The number of fetchers that have not returned. -/
def runningCount (p : Pipeline) : Nat := p.fetchers.countP (fun f => !f.returned)

/-- What holds in every state the goroutines can reach: the counter of the
`WaitGroup` is the number of fetchers still running, a fetcher that has
returned has nothing left to send, `done` is closed only when the counter is
0, and `isDone` is set only when `done` is closed. -/
def Pipeline.Consistent (p : Pipeline) : Prop :=
  p.wg = runningCount p ∧
  (∀ f ∈ p.fetchers, f.returned = true → f.toSend = []) ∧
  (p.doneClosed = true → p.wg = 0) ∧
  (p.isDone = true → p.doneClosed = true)


/-! ## Concrete inputs -/

/-- The constant `time.Hour`, in nanoseconds. -/
def hour : Int := 3600 * 1000000000

/-- Twenty-four hours, in nanoseconds. -/
def day : Int := 24 * hour

/-- The instant 2021-01-08T00:00:00Z, the `T` of the examples. -/
def exampleNow : Int := 737797 * day

/-- A world for the examples. Four feed timestamps parse: one hour, two
hours, three days and ten days before `exampleNow`; every other text is
rejected. The duration lookup of video `"a"` finds 125 seconds, that of `"b"`
a length that is no number, that of `"c"` a page without a length, that of
`"d"` a status 404, that of `"e"` an unreadable body; the feed at
`http://example.org/feed` has one entry, published one hour before
`exampleNow`; every other request fails in transport. -/
def exampleWorld : World where
  httpGet := fun url =>
    if url = "http://youtube.com/get_video_info?video_id=a" then
      .response 200 (some "status=ok&lengthSeconds%22%3A%22125%22%2C")
    else if url = "http://youtube.com/get_video_info?video_id=b" then
      .response 200 (some "lengthSeconds%22%3A%22abc%22")
    else if url = "http://youtube.com/get_video_info?video_id=c" then
      .response 200 (some "status=fail")
    else if url = "http://youtube.com/get_video_info?video_id=d" then
      .response 404 (some "lengthSeconds%22%3A%22125%22")
    else if url = "http://youtube.com/get_video_info?video_id=e" then
      .response 200 none
    else if url = "http://example.org/feed" then
      .response 200 (some "<feed><entry>t1</entry></feed>")
    else .transportError
  xmlUnmarshal := fun body =>
    if body = "<feed><entry>t1</entry></feed>" then
      some [⟨"t1", "x", "2021-01-07T23:00:00Z"⟩]
    else none
  timeParse := fun s =>
    if s = "2021-01-07T23:00:00Z" then some ⟨exampleNow - hour⟩
    else if s = "2021-01-07T22:00:00Z" then some ⟨exampleNow - 2 * hour⟩
    else if s = "2021-01-05T00:00:00Z" then some ⟨exampleNow - 3 * day⟩
    else if s = "2020-12-29T00:00:00Z" then some ⟨exampleNow - 10 * day⟩
    else none
  timeFormat := fun t =>
    if t.nanos = exampleNow - hour then "2021-01-07 23:00:00"
    else if t.nanos = exampleNow - 2 * hour then "2021-01-07 22:00:00"
    else if t.nanos = exampleNow - 3 * day then "2021-01-05 00:00:00"
    else "2020-12-29 00:00:00"

/-- The channel of the examples. -/
def exampleChannel : channel := { name := "chan", url := "http://example.org/feed" }

/-- The cutoff of the examples, seven days before `exampleNow`. -/
def exampleCutoff : Time := ⟨exampleNow - 7 * day⟩


/-- A video of the examples with the given title and instant. -/
def exampleVideo (title : String) (nanos : Int) : youtubeVideo :=
  { Account := "acct", Channel := "chan", Title := title, VideoID := title,
    DurationStr := "", TimestampStr := "2006-01-02 15:04:05", timestamp := ⟨nanos⟩ }

/-- Thirteen ranked videos, newest first; `v6` and `v7` have the same timestamp. -/
def ranked13 : youtubeVideoSlice :=
  [exampleVideo "v0" 130, exampleVideo "v1" 120, exampleVideo "v2" 110,
   exampleVideo "v3" 100, exampleVideo "v4" 90, exampleVideo "v5" 80,
   exampleVideo "v6" 70, exampleVideo "v7" 70, exampleVideo "v8" 60,
   exampleVideo "v9" 50, exampleVideo "v10" 40, exampleVideo "v11" 30,
   exampleVideo "v12" 20]

/-- The same videos with `v6` and `v7` exchanged. -/
def reranked13 : youtubeVideoSlice :=
  [exampleVideo "v0" 130, exampleVideo "v1" 120, exampleVideo "v2" 110,
   exampleVideo "v3" 100, exampleVideo "v4" 90, exampleVideo "v5" 80,
   exampleVideo "v7" 70, exampleVideo "v6" 70, exampleVideo "v8" 60,
   exampleVideo "v9" 50, exampleVideo "v10" 40, exampleVideo "v11" 30,
   exampleVideo "v12" 20]

/-! ## Properties of the loop of `fetch` -/

section FetchLoop

variable (w : World) (account : String) (ch : channel) (timestampCutoff : Time)
  (maxEntries : Int) (fetchDuration : Bool)

theorem parseTimestamp_newVideo_none {item : entry} (dur : String)
    (h : w.timeParse item.Published = none) :
    (newVideo account ch item dur).parseTimestamp w = none := by
  simp [youtubeVideo.parseTimestamp, newVideo, h]

theorem parseTimestamp_newVideo_some {item : entry} (dur : String) {t : Time}
    (h : w.timeParse item.Published = some t) :
    (newVideo account ch item dur).parseTimestamp w = some (parsedVideo w account ch item dur t) := by
  simp [youtubeVideo.parseTimestamp, newVideo, parsedVideo, h]

theorem before_eq_false_iff (t u : Time) : t.Before u = false ↔ u.nanos ≤ t.nanos := by
  simp [Time.Before]

theorem fetchLoop_nil (idx : Nat) :
    fetchLoop w account ch timestampCutoff maxEntries fetchDuration idx [] =
      FetchRun.halt .exhausted := by
  simp [fetchLoop]

theorem fetchLoop_cons_max {idx : Nat} (item : entry) (rest : List entry)
    (h : maxEntries ≤ idx) :
    fetchLoop w account ch timestampCutoff maxEntries fetchDuration idx (item :: rest) =
      FetchRun.halt .maxReached := by
  simp [fetchLoop, h]

theorem fetchLoop_cons_fault {idx : Nat} (item : entry) (rest : List entry)
    (h : (idx : Int) < maxEntries)
    (hl : lookupDuration w fetchDuration item.VideoID = none) :
    fetchLoop w account ch timestampCutoff maxEntries fetchDuration idx (item :: rest) =
      { FetchRun.halt .fault with lookups := lookedUp fetchDuration item.VideoID } := by
  simp [fetchLoop, not_le.mpr h, hl]

theorem fetchLoop_cons_skip {idx : Nat} (item : entry) (rest : List entry) {dur : String}
    (h : (idx : Int) < maxEntries)
    (hl : lookupDuration w fetchDuration item.VideoID = some dur)
    (hp : w.timeParse item.Published = none) :
    fetchLoop w account ch timestampCutoff maxEntries fetchDuration idx (item :: rest) =
      { fetchLoop w account ch timestampCutoff maxEntries fetchDuration (idx + 1) rest with
        lookups := lookedUp fetchDuration item.VideoID ++
          (fetchLoop w account ch timestampCutoff maxEntries fetchDuration (idx + 1) rest).lookups,
        skipped := item.VideoID ::
          (fetchLoop w account ch timestampCutoff maxEntries fetchDuration (idx + 1) rest).skipped } := by
  simp [fetchLoop, not_le.mpr h, hl, parseTimestamp_newVideo_none w account ch dur hp]

theorem fetchLoop_cons_old {idx : Nat} (item : entry) (rest : List entry) {dur : String}
    {t : Time} (h : (idx : Int) < maxEntries)
    (hl : lookupDuration w fetchDuration item.VideoID = some dur)
    (hp : w.timeParse item.Published = some t) (hb : t.Before timestampCutoff = true) :
    fetchLoop w account ch timestampCutoff maxEntries fetchDuration idx (item :: rest) =
      { FetchRun.halt .cutoff with lookups := lookedUp fetchDuration item.VideoID } := by
  have hb' : (parsedVideo w account ch item dur t).timestamp.Before timestampCutoff = true := hb
  simp [fetchLoop, not_le.mpr h, hl, parseTimestamp_newVideo_some w account ch dur hp, hb']

theorem fetchLoop_cons_send {idx : Nat} (item : entry) (rest : List entry) {dur : String}
    {t : Time} (h : (idx : Int) < maxEntries)
    (hl : lookupDuration w fetchDuration item.VideoID = some dur)
    (hp : w.timeParse item.Published = some t) (hb : t.Before timestampCutoff = false) :
    fetchLoop w account ch timestampCutoff maxEntries fetchDuration idx (item :: rest) =
      { fetchLoop w account ch timestampCutoff maxEntries fetchDuration (idx + 1) rest with
        sent := parsedVideo w account ch item dur t ::
          (fetchLoop w account ch timestampCutoff maxEntries fetchDuration (idx + 1) rest).sent,
        lookups := lookedUp fetchDuration item.VideoID ++
          (fetchLoop w account ch timestampCutoff maxEntries fetchDuration (idx + 1) rest).lookups } := by
  have hb' : (parsedVideo w account ch item dur t).timestamp.Before timestampCutoff = false := hb
  simp [fetchLoop, not_le.mpr h, hl, parseTimestamp_newVideo_some w account ch dur hp, hb']

/-- The five ways one turn of the loop can go. -/
theorem fetchLoop_cons_cases (idx : Nat) (item : entry) :
    (maxEntries ≤ idx) ∨
    ((idx : Int) < maxEntries ∧ lookupDuration w fetchDuration item.VideoID = none) ∨
    (∃ dur, (idx : Int) < maxEntries ∧
      lookupDuration w fetchDuration item.VideoID = some dur ∧
      w.timeParse item.Published = none) ∨
    (∃ dur t, (idx : Int) < maxEntries ∧
      lookupDuration w fetchDuration item.VideoID = some dur ∧
      w.timeParse item.Published = some t ∧ t.Before timestampCutoff = true) ∨
    (∃ dur t, (idx : Int) < maxEntries ∧
      lookupDuration w fetchDuration item.VideoID = some dur ∧
      w.timeParse item.Published = some t ∧ t.Before timestampCutoff = false) := by
  by_cases h : maxEntries ≤ idx
  · exact Or.inl h
  · have h' : (idx : Int) < maxEntries := not_le.mp h
    cases hl : lookupDuration w fetchDuration item.VideoID with
    | none => exact Or.inr (Or.inl ⟨h', rfl⟩)
    | some dur =>
      cases hp : w.timeParse item.Published with
      | none => exact Or.inr (Or.inr (Or.inl ⟨dur, h', rfl, rfl⟩))
      | some t =>
        cases hb : t.Before timestampCutoff with
        | true => exact Or.inr (Or.inr (Or.inr (Or.inl ⟨dur, t, h', rfl, rfl, hb⟩)))
        | false => exact Or.inr (Or.inr (Or.inr (Or.inr ⟨dur, t, h', rfl, rfl, hb⟩)))

/-- Every video the loop sends comes from one of the entries that remain,
with that entry's parsed timestamp, and is not before the cutoff. -/
theorem fetchLoop_sent_spec (entries : List entry) :
    ∀ (idx : Nat) (v : youtubeVideo),
      v ∈ (fetchLoop w account ch timestampCutoff maxEntries fetchDuration idx entries).sent →
      v.timestamp.Before timestampCutoff = false ∧
        ∃ e ∈ entries, w.timeParse e.Published = some v.timestamp ∧
          v.Title = e.Title ∧ v.VideoID = e.VideoID := by
  induction entries with
  | nil => intro idx v hv; simp [fetchLoop_nil, FetchRun.halt] at hv
  | cons item rest ih =>
    intro idx v hv
    rcases fetchLoop_cons_cases w timestampCutoff maxEntries fetchDuration idx item with
      h | ⟨h, hl⟩ | ⟨dur, h, hl, hp⟩ | ⟨dur, t, h, hl, hp, hb⟩ | ⟨dur, t, h, hl, hp, hb⟩
    · simp [fetchLoop_cons_max _ _ _ _ _ _ _ _ h, FetchRun.halt] at hv
    · simp [fetchLoop_cons_fault _ _ _ _ _ _ _ _ h hl, FetchRun.halt] at hv
    · rw [fetchLoop_cons_skip _ _ _ _ _ _ _ _ h hl hp] at hv
      obtain ⟨hb, e, he, hrest⟩ := ih (idx + 1) v hv
      exact ⟨hb, e, List.mem_cons_of_mem _ he, hrest⟩
    · simp [fetchLoop_cons_old _ _ _ _ _ _ _ _ h hl hp hb, FetchRun.halt] at hv
    · rw [fetchLoop_cons_send _ _ _ _ _ _ _ _ h hl hp hb] at hv
      simp only [List.mem_cons] at hv
      rcases hv with rfl | hv
      · exact ⟨hb, item, List.mem_cons_self _ _, hp, rfl, rfl⟩
      · obtain ⟨hb, e, he, hrest⟩ := ih (idx + 1) v hv
        exact ⟨hb, e, List.mem_cons_of_mem _ he, hrest⟩

/-- From index `idx` on the loop sends at most `maxEntries - idx` videos. -/
theorem fetchLoop_sent_length (entries : List entry) :
    ∀ idx : Nat, (idx : Int) ≤ maxEntries →
      ((fetchLoop w account ch timestampCutoff maxEntries fetchDuration idx entries).sent.length
        : Int) + idx ≤ maxEntries := by
  induction entries with
  | nil => intro idx h; simpa [fetchLoop_nil, FetchRun.halt] using h
  | cons item rest ih =>
    intro idx h0
    rcases fetchLoop_cons_cases w timestampCutoff maxEntries fetchDuration idx item with
      h | ⟨h, hl⟩ | ⟨dur, h, hl, hp⟩ | ⟨dur, t, h, hl, hp, hb⟩ | ⟨dur, t, h, hl, hp, hb⟩
    · simpa [fetchLoop_cons_max _ _ _ _ _ _ _ _ h, FetchRun.halt] using h0
    · simpa [fetchLoop_cons_fault _ _ _ _ _ _ _ _ h hl, FetchRun.halt] using h0
    · rw [fetchLoop_cons_skip _ _ _ _ _ _ _ _ h hl hp]
      have := ih (idx + 1) (by push_cast; omega)
      simp only; push_cast at this; omega
    · simpa [fetchLoop_cons_old _ _ _ _ _ _ _ _ h hl hp hb, FetchRun.halt] using h0
    · rw [fetchLoop_cons_send _ _ _ _ _ _ _ _ h hl hp hb]
      have := ih (idx + 1) (by push_cast; omega)
      simp only [List.length_cons]; push_cast at this ⊢; omega

/-- A run of `fetch` either returns before its loop or is a run of the loop
over the entries of the feed. -/
theorem fetch_eq_halt_or_loop :
    fetch w account ch timestampCutoff maxEntries fetchDuration = FetchRun.halt .noFeed ∨
      ∃ entries, fetch w account ch timestampCutoff maxEntries fetchDuration =
        fetchLoop w account ch timestampCutoff maxEntries fetchDuration 0 entries := by
  unfold fetch
  split
  · exact Or.inl rfl
  · split
    · exact Or.inl rfl
    · split
      · exact Or.inl rfl
      · split
        · exact Or.inl rfl
        · exact Or.inr ⟨_, rfl⟩

end FetchLoop

section FetchLoopMore

variable (w : World) (account : String) (ch : channel) (timestampCutoff : Time)
  (maxEntries : Int) (fetchDuration : Bool)

/-- An entry that parses to an instant before the cutoff hides everything
behind it: what is sent is what the entries in front of it give. -/
theorem fetchLoop_sent_append_old (e : entry) (post : List entry) {t : Time}
    (hparse : w.timeParse e.Published = some t) (hold : t.Before timestampCutoff = true)
    (pre : List entry) :
    ∀ idx : Nat,
      (fetchLoop w account ch timestampCutoff maxEntries fetchDuration idx
          (pre ++ e :: post)).sent =
        (fetchLoop w account ch timestampCutoff maxEntries fetchDuration idx pre).sent := by
  induction pre with
  | nil =>
    intro idx
    rw [List.nil_append, fetchLoop_nil]
    rcases fetchLoop_cons_cases w timestampCutoff maxEntries fetchDuration idx e with
      h | ⟨h, hl⟩ | ⟨dur, h, hl, hp⟩ | ⟨dur, t', h, hl, hp, hb⟩ | ⟨dur, t', h, hl, hp, hb⟩
    · simp [fetchLoop_cons_max _ _ _ _ _ _ _ _ h, FetchRun.halt]
    · simp [fetchLoop_cons_fault _ _ _ _ _ _ _ _ h hl, FetchRun.halt]
    · rw [hparse] at hp; cases hp
    · simp [fetchLoop_cons_old _ _ _ _ _ _ _ _ h hl hp hb, FetchRun.halt]
    · rw [hparse] at hp; cases hp; rw [hold] at hb; cases hb
  | cons item rest ih =>
    intro idx
    rw [List.cons_append]
    rcases fetchLoop_cons_cases w timestampCutoff maxEntries fetchDuration idx item with
      h | ⟨h, hl⟩ | ⟨dur, h, hl, hp⟩ | ⟨dur, t', h, hl, hp, hb⟩ | ⟨dur, t', h, hl, hp, hb⟩
    · rw [fetchLoop_cons_max _ _ _ _ _ _ _ _ h, fetchLoop_cons_max _ _ _ _ _ _ _ _ h]
    · rw [fetchLoop_cons_fault _ _ _ _ _ _ _ _ h hl, fetchLoop_cons_fault _ _ _ _ _ _ _ _ h hl]
    · rw [fetchLoop_cons_skip _ _ _ _ _ _ _ _ h hl hp, fetchLoop_cons_skip _ _ _ _ _ _ _ _ h hl hp]
      exact ih (idx + 1)
    · rw [fetchLoop_cons_old _ _ _ _ _ _ _ _ h hl hp hb,
        fetchLoop_cons_old _ _ _ _ _ _ _ _ h hl hp hb]
    · rw [fetchLoop_cons_send _ _ _ _ _ _ _ _ h hl hp hb,
        fetchLoop_cons_send _ _ _ _ _ _ _ _ h hl hp hb]
      simp only [List.cons.injEq, true_and]
      exact ih (idx + 1)

/-- The videos sent follow the entries: their titles and ids are, in order,
those of some of the entries. -/
theorem fetchLoop_sent_sublist (entries : List entry) :
    ∀ idx : Nat,
      ((fetchLoop w account ch timestampCutoff maxEntries fetchDuration idx entries).sent.map
          (fun v => (v.Title, v.VideoID))).Sublist
        (entries.map (fun e => (e.Title, e.VideoID))) := by
  induction entries with
  | nil => intro idx; simp [fetchLoop_nil, FetchRun.halt]
  | cons item rest ih =>
    intro idx
    rcases fetchLoop_cons_cases w timestampCutoff maxEntries fetchDuration idx item with
      h | ⟨h, hl⟩ | ⟨dur, h, hl, hp⟩ | ⟨dur, t, h, hl, hp, hb⟩ | ⟨dur, t, h, hl, hp, hb⟩
    · simp [fetchLoop_cons_max _ _ _ _ _ _ _ _ h, FetchRun.halt]
    · simp [fetchLoop_cons_fault _ _ _ _ _ _ _ _ h hl, FetchRun.halt]
    · rw [fetchLoop_cons_skip _ _ _ _ _ _ _ _ h hl hp]
      exact List.Sublist.cons _ (ih (idx + 1))
    · simp [fetchLoop_cons_old _ _ _ _ _ _ _ _ h hl hp hb, FetchRun.halt]
    · rw [fetchLoop_cons_send _ _ _ _ _ _ _ _ h hl hp hb]
      exact List.Sublist.cons₂ _ (ih (idx + 1))

/-- A lookup that does not panic gives a duration string. -/
theorem lookupDuration_isSome_of (e : entry)
    (hlook : fetchDuration = true → (getDurationStr w e.VideoID).isSome = true) :
    ∃ dur, lookupDuration w fetchDuration e.VideoID = some dur := by
  unfold lookupDuration
  cases hf : fetchDuration with
  | false => exact ⟨"", by simp⟩
  | true =>
    have := hlook hf
    cases hg : getDurationStr w e.VideoID with
    | none => simp [hg] at this
    | some d => exact ⟨d, by simp⟩

/-- When no lookup panics, the loop from `idx` sends what a loop from any
earlier index sends for the window of entries below `maxEntries` with the
unparsable ones removed. -/
theorem fetchLoop_sent_filter (entries : List entry)
    (hlook : fetchDuration = true → ∀ e ∈ entries, (getDurationStr w e.VideoID).isSome = true) :
    ∀ idx idx' : Nat, idx' ≤ idx →
      (fetchLoop w account ch timestampCutoff maxEntries fetchDuration idx entries).sent =
        (fetchLoop w account ch timestampCutoff maxEntries fetchDuration idx'
          ((entries.take (maxEntries - idx).toNat).filter
            (fun e => (w.timeParse e.Published).isSome))).sent := by
  induction entries with
  | nil => intro idx idx' _; simp [fetchLoop_nil]
  | cons item rest ih =>
    intro idx idx' hle
    have ih' := ih (fun hf e he => hlook hf e (List.mem_cons_of_mem _ he))
    obtain ⟨d0, hd0⟩ := lookupDuration_isSome_of w fetchDuration item
      (fun hf => hlook hf item (List.mem_cons_self _ _))
    rcases fetchLoop_cons_cases w timestampCutoff maxEntries fetchDuration idx item with
      h | ⟨h, hl⟩ | ⟨dur, h, hl, hp⟩ | ⟨dur, t, h, hl, hp, hb⟩ | ⟨dur, t, h, hl, hp, hb⟩
    · have hz : (maxEntries - idx).toNat = 0 := by omega
      simp [fetchLoop_cons_max _ _ _ _ _ _ _ _ h, hz, fetchLoop_nil, FetchRun.halt]
    · rw [hd0] at hl; cases hl
    · have hk : (maxEntries - idx).toNat = (maxEntries - (idx + 1 : Nat)).toNat + 1 := by
        push_cast; omega
      rw [fetchLoop_cons_skip _ _ _ _ _ _ _ _ h hl hp, hk, List.take_succ_cons,
        List.filter_cons_of_neg (by simp [hp])]
      exact ih' (idx + 1) idx' (by omega)
    · have hk : (maxEntries - idx).toNat = (maxEntries - (idx + 1 : Nat)).toNat + 1 := by
        push_cast; omega
      have h' : (idx' : Int) < maxEntries := by omega
      rw [fetchLoop_cons_old _ _ _ _ _ _ _ _ h hl hp hb, hk, List.take_succ_cons,
        List.filter_cons_of_pos (by simp [hp]),
        fetchLoop_cons_old _ _ _ _ _ _ _ _ h' hl hp hb]
    · have hk : (maxEntries - idx).toNat = (maxEntries - (idx + 1 : Nat)).toNat + 1 := by
        push_cast; omega
      have h' : (idx' : Int) < maxEntries := by omega
      rw [fetchLoop_cons_send _ _ _ _ _ _ _ _ h hl hp hb, hk, List.take_succ_cons,
        List.filter_cons_of_pos (by simp [hp]),
        fetchLoop_cons_send _ _ _ _ _ _ _ _ h' hl hp hb]
      simp only [List.cons.injEq, true_and]
      exact ih' (idx + 1) (idx' + 1) (by omega)

/-- The number of `getDurationStr` calls: with enrichment one call for every
video sent, one for every entry skipped, one for the entry at which the cutoff
ends the loop and one for the call that panics; without enrichment none. -/
theorem fetchLoop_lookups_length (entries : List entry) :
    ∀ idx : Nat,
      (fetchLoop w account ch timestampCutoff maxEntries fetchDuration idx entries).lookups.length =
        if fetchDuration then
          (fetchLoop w account ch timestampCutoff maxEntries fetchDuration idx entries).sent.length +
          (fetchLoop w account ch timestampCutoff maxEntries fetchDuration idx entries).skipped.length +
          (if (fetchLoop w account ch timestampCutoff maxEntries fetchDuration idx entries).stop
              = .cutoff then 1 else 0) +
          (if (fetchLoop w account ch timestampCutoff maxEntries fetchDuration idx entries).stop
              = .fault then 1 else 0)
        else 0 := by
  induction entries with
  | nil => intro idx; cases fetchDuration <;> simp [fetchLoop_nil, FetchRun.halt]
  | cons item rest ih =>
    intro idx
    have ih' := ih (idx + 1)
    rcases fetchLoop_cons_cases w timestampCutoff maxEntries fetchDuration idx item with
      h | ⟨h, hl⟩ | ⟨dur, h, hl, hp⟩ | ⟨dur, t, h, hl, hp, hb⟩ | ⟨dur, t, h, hl, hp, hb⟩
    · cases fetchDuration <;> simp [fetchLoop_cons_max _ _ _ _ _ _ _ _ h, FetchRun.halt]
    · cases fetchDuration <;>
        simp [fetchLoop_cons_fault _ _ _ _ _ _ _ _ h hl, FetchRun.halt, lookedUp]
    · rw [fetchLoop_cons_skip _ _ _ _ _ _ _ _ h hl hp]
      cases hf : fetchDuration <;> simp [hf, lookedUp] at ih' ⊢
      · exact ih'
      · omega
    · cases fetchDuration <;>
        simp [fetchLoop_cons_old _ _ _ _ _ _ _ _ h hl hp hb, FetchRun.halt, lookedUp]
    · rw [fetchLoop_cons_send _ _ _ _ _ _ _ _ h hl hp hb]
      cases hf : fetchDuration <;> simp [hf, lookedUp] at ih' ⊢
      · exact ih'
      · omega

/-- Without enrichment every video sent has the empty duration string. -/
theorem fetchLoop_sent_duration_empty (entries : List entry) :
    ∀ (idx : Nat),
      ∀ v ∈ (fetchLoop w account ch timestampCutoff maxEntries false idx entries).sent,
        v.DurationStr = "" := by
  induction entries with
  | nil => intro idx v hv; simp [fetchLoop_nil, FetchRun.halt] at hv
  | cons item rest ih =>
    intro idx v hv
    rcases fetchLoop_cons_cases w timestampCutoff maxEntries false idx item with
      h | ⟨h, hl⟩ | ⟨dur, h, hl, hp⟩ | ⟨dur, t, h, hl, hp, hb⟩ | ⟨dur, t, h, hl, hp, hb⟩
    · simp [fetchLoop_cons_max _ _ _ _ _ _ _ _ h, FetchRun.halt] at hv
    · simp [fetchLoop_cons_fault _ _ _ _ _ _ _ _ h hl, FetchRun.halt] at hv
    · rw [fetchLoop_cons_skip _ _ _ _ _ _ _ _ h hl hp] at hv
      exact ih (idx + 1) v hv
    · simp [fetchLoop_cons_old _ _ _ _ _ _ _ _ h hl hp hb, FetchRun.halt] at hv
    · rw [fetchLoop_cons_send _ _ _ _ _ _ _ _ h hl hp hb] at hv
      simp only [List.mem_cons] at hv
      rcases hv with rfl | hv
      · have : dur = "" := by simpa [lookupDuration] using hl.symm
        simp [parsedVideo, newVideo, this]
      · exact ih (idx + 1) v hv

end FetchLoopMore

/-! ## Properties of `getDurationStr` -/

section Duration

/-- A syntax error of `strconv.ParseInt` comes with the value 0. -/
theorem ParseInt_syntaxError (s : List Char) (h : (ParseInt s).2 = some .syntaxError) :
    (ParseInt s).1 = 0 := by
  unfold ParseInt at h ⊢
  cases s with
  | nil => rfl
  | cons c cs =>
    simp only at h ⊢
    generalize ParseUint (if (c == '+' || c == '-') = true then cs else c :: cs) = r at h ⊢
    obtain ⟨un, e⟩ := r
    cases e with
    | none =>
      simp only at h ⊢
      split at h
      · cases h
      · split at h <;> cases h
    | some e =>
      cases e with
      | syntaxError => rfl
      | rangeError =>
        simp only at h ⊢
        split at h
        · cases h
        · split at h <;> cases h

/-- A syntax error of `strconv.Atoi` comes with the value 0. -/
theorem Atoi_syntaxError (s : String) (h : (Atoi s).2 = some .syntaxError) :
    (Atoi s).1 = 0 :=
  ParseInt_syntaxError s.toList h

end Duration

section DurationOutcomes

variable (w : World) (videoID : String)

theorem getDurationStr_transportError
    (h : w.httpGet ("http://youtube.com/get_video_info?video_id=" ++ videoID) =
      .transportError) :
    getDurationStr w videoID = some "" := by
  simp [getDurationStr, h]

theorem getDurationStr_badStatus {status : Int} {body : Option String}
    (h : w.httpGet ("http://youtube.com/get_video_info?video_id=" ++ videoID) =
      .response status body)
    (hs : status < 200 ∨ 400 ≤ status) :
    getDurationStr w videoID = some "" := by
  simp only [getDurationStr, h]
  rw [if_pos (by simpa using hs)]

theorem getDurationStr_unreadable {status : Int}
    (h : w.httpGet ("http://youtube.com/get_video_info?video_id=" ++ videoID) =
      .response status none) :
    getDurationStr w videoID = some "" := by
  simp only [getDurationStr, h]
  split <;> rfl

theorem getDurationStr_noMatch {status : Int} {body : String}
    (h : w.httpGet ("http://youtube.com/get_video_info?video_id=" ++ videoID) =
      .response status (some body))
    (hs₁ : 200 ≤ status) (hs₂ : status < 400)
    (hres : FindStringSubmatch body.toList = []) :
    getDurationStr w videoID = none := by
  simp only [getDurationStr, h]
  rw [if_neg (by simp; omega)]
  simp only [hres, List.getLast?_nil]

theorem getDurationStr_notANumber {status : Int} {body last : String}
    (h : w.httpGet ("http://youtube.com/get_video_info?video_id=" ++ videoID) =
      .response status (some body))
    (hs₁ : 200 ≤ status) (hs₂ : status < 400)
    (hres : (FindStringSubmatch body.toList).getLast? = some last)
    (hnum : (Atoi last).2 = some .syntaxError) :
    getDurationStr w videoID = some "00:00" := by
  simp only [getDurationStr, h]
  rw [if_neg (by simp; omega)]
  simp only [hres, Atoi_syntaxError last hnum]
  rfl

end DurationOutcomes

/-! ## Properties of the ranking -/

section Ranking

theorem Less_eq_some (s : youtubeVideoSlice) (i j : Nat) (hi : i < s.length)
    (hj : j < s.length) :
    s.Less i j = some (s[i].timestamp.After s[j].timestamp) := by
  simp [youtubeVideoSlice.Less, List.getElem?_eq_getElem hi, List.getElem?_eq_getElem hj]

/-- A `Swap` only rearranges the slice. -/
theorem Swap_perm {s t : youtubeVideoSlice} {i j : Nat} (h : s.Swap i j = some t) :
    t.Perm s := by
  unfold youtubeVideoSlice.Swap at h
  cases hi : s[i]? with
  | none => simp [hi] at h
  | some a =>
    cases hj : s[j]? with
    | none => simp [hi, hj] at h
    | some b =>
      simp only [hi, hj, Option.some.injEq] at h
      subst h
      obtain ⟨hi', hia⟩ := List.getElem?_eq_some.mp hi
      obtain ⟨hj', hjb⟩ := List.getElem?_eq_some.mp hj
      rw [List.perm_iff_count]
      intro x
      have hj'' : j < (s.set i b).length := by simpa using hj'
      rw [List.count_set _ _ _ _ hj'', List.count_set _ _ _ _ hi']
      have hget : (s.set i b)[j] = if i = j then b else s[j] := by
        rw [List.getElem_set]
      rw [hget]
      have ha : 0 < s.count a := List.count_pos_iff.mpr (hia ▸ List.getElem_mem _)
      have hb : 0 < s.count b := List.count_pos_iff.mpr (hjb ▸ List.getElem_mem _)
      by_cases hij : i = j
      · subst hij
        have hab : a = b := by rw [← hia, ← hjb]
        subst hab
        simp only [hia, if_true]
        by_cases hax : a = x
        · subst hax; simp
          omega
        · simp [hax]
      · simp only [hij, if_false, hia, hjb]
        by_cases hax : a = x <;> by_cases hbx : b = x
        · subst hax; subst hbx; simp
          omega
        · subst hax; simp [hbx]
          omega
        · subst hbx; simp [hax]
        · simp [hax, hbx]

/-- A sequence of `Swap` calls only rearranges the slice. -/
theorem applySwaps_perm (ops : List (Nat × Nat)) :
    ∀ {s t : youtubeVideoSlice}, applySwaps s ops = some t → t.Perm s := by
  induction ops with
  | nil => intro s t h; simp [applySwaps] at h; subst h; exact List.Perm.refl _
  | cons op ops ih =>
    intro s t h
    obtain ⟨i, j⟩ := op
    unfold applySwaps at h
    cases hs : s.Swap i j with
    | none => simp [hs] at h
    | some s' =>
      simp only [hs] at h
      exact (ih h).trans (Swap_perm hs)

theorem applySwaps_append (ops₁ ops₂ : List (Nat × Nat)) :
    ∀ {s t u : youtubeVideoSlice}, applySwaps s ops₁ = some t → applySwaps t ops₂ = some u →
      applySwaps s (ops₁ ++ ops₂) = some u := by
  induction ops₁ with
  | nil => intro s t u h₁ h₂; simp [applySwaps] at h₁; subst h₁; simpa using h₂
  | cons op ops ih =>
    intro s t u h₁ h₂
    obtain ⟨i, j⟩ := op
    rw [List.cons_append]
    unfold applySwaps at h₁ ⊢
    cases hs : s.Swap i j with
    | none => simp [hs] at h₁
    | some s' =>
      simp only [hs] at h₁ ⊢
      exact ih h₁ h₂

theorem Swap_cons_succ (x : youtubeVideo) (s : youtubeVideoSlice) (i j : Nat) :
    youtubeVideoSlice.Swap (x :: s) (i + 1) (j + 1) = (s.Swap i j).map (fun t => x :: t) := by
  unfold youtubeVideoSlice.Swap
  simp only [List.getElem?_cons_succ]
  cases s[i]? <;> cases s[j]? <;> simp

theorem applySwaps_cons_shift (x : youtubeVideo) (ops : List (Nat × Nat)) :
    ∀ {s t : youtubeVideoSlice}, applySwaps s ops = some t →
      applySwaps (x :: s) (ops.map (fun p => (p.1 + 1, p.2 + 1))) = some (x :: t) := by
  induction ops with
  | nil => intro s t h; simp [applySwaps] at h ⊢; exact h
  | cons op ops ih =>
    intro s t h
    obtain ⟨i, j⟩ := op
    unfold applySwaps at h
    cases hs : s.Swap i j with
    | none => simp [hs] at h
    | some s' =>
      simp only [hs] at h
      simp only [List.map_cons, applySwaps, Swap_cons_succ, hs, Option.map_some']
      exact ih h

/-- Every rearrangement of a slice is reached by some sequence of `Swap` calls. -/
theorem exists_swaps_of_perm {s t : youtubeVideoSlice} (h : s.Perm t) :
    ∃ ops, applySwaps s ops = some t := by
  induction h with
  | nil => exact ⟨[], rfl⟩
  | cons x _ ih =>
    obtain ⟨ops, hops⟩ := ih
    exact ⟨_, applySwaps_cons_shift x ops hops⟩
  | swap x y l => exact ⟨[(0, 1)], by simp [applySwaps, youtubeVideoSlice.Swap]⟩
  | trans _ _ ih₁ ih₂ =>
    obtain ⟨ops₁, h₁⟩ := ih₁
    obtain ⟨ops₂, h₂⟩ := ih₂
    exact ⟨_, applySwaps_append ops₁ ops₂ h₁ h₂⟩

end Ranking

section RankingOrder

theorem isSortedFrom_eq_true_iff (s : youtubeVideoSlice) (n : Nat) :
    isSortedFrom s n = true ↔ ∀ i, i < n → s.Less (i + 1) i ≠ some true := by
  induction n with
  | zero => simp [isSortedFrom]
  | succ n ih =>
    unfold isSortedFrom
    by_cases h : s.Less (n + 1) n = some true
    · simp only [h, if_true]
      constructor
      · intro hf; cases hf
      · intro hall; exact absurd h (hall n (Nat.lt_succ_self n))
    · simp only [h, if_false, ih]
      constructor
      · intro hall i hi
        rcases Nat.lt_succ_iff_lt_or_eq.mp hi with hlt | rfl
        · exact hall i hlt
        · exact h
      · intro hall i hi
        exact hall i (Nat.lt_succ_of_lt hi)

/-- The verdict of `sort.IsSorted` in terms of neighbours: no video is older
than the one right after it. -/
theorem IsSorted_iff_adjacent (s : youtubeVideoSlice) :
    IsSorted s = true ↔
      ∀ (i : Nat) (h : i + 1 < s.length), s[i + 1].timestamp.nanos ≤ s[i].timestamp.nanos := by
  unfold IsSorted
  rw [isSortedFrom_eq_true_iff]
  have hlen : (s.Len - 1).toNat = s.length - 1 := by
    simp only [youtubeVideoSlice.Len]
    omega
  rw [hlen]
  constructor
  · intro hall i h
    have := hall i (by omega)
    rw [Less_eq_some s (i + 1) i h (by omega)] at this
    simpa [Time.After] using this
  · intro hall i hi
    have h : i + 1 < s.length := by omega
    rw [Less_eq_some s (i + 1) i h (by omega)]
    have := hall i h
    simp [Time.After]
    omega

theorem adjacent_le_of_le (s : youtubeVideoSlice)
    (hadj : ∀ (i : Nat) (h : i + 1 < s.length),
      s[i + 1].timestamp.nanos ≤ s[i].timestamp.nanos) :
    ∀ (d i : Nat) (h : i + d < s.length), s[i + d].timestamp.nanos ≤ s[i].timestamp.nanos := by
  intro d
  induction d with
  | zero => intro i h; exact le_refl _
  | succ d ih =>
    intro i h
    have h₁ := ih i (by omega)
    have h₂ := hadj (i + d) (by omega)
    exact le_trans h₂ h₁

/-- The verdict of `sort.IsSorted` in terms of all pairs: no video is older
than any video after it. -/
theorem IsSorted_iff_pairwise (s : youtubeVideoSlice) :
    IsSorted s = true ↔
      s.Pairwise (fun a b => b.timestamp.nanos ≤ a.timestamp.nanos) := by
  rw [IsSorted_iff_adjacent, List.pairwise_iff_getElem]
  constructor
  · intro hadj i j hi hj hij
    have := adjacent_le_of_le s hadj (j - i) i (by omega)
    have hji : i + (j - i) = j := by omega
    simpa [hji] using this
  · intro hpw i h
    exact hpw i (i + 1) (by omega) h (by omega)

/-- Some sequence of `Swap` calls sorts any slice. -/
theorem exists_sortOutcome (s : youtubeVideoSlice) : ∃ t, SortOutcome s t := by
  let r : youtubeVideo → youtubeVideo → Prop :=
    fun a b => b.timestamp.nanos ≤ a.timestamp.nanos
  haveI : DecidableRel r := fun a b => inferInstanceAs (Decidable (_ ≤ _))
  haveI : IsTotal youtubeVideo r := ⟨fun a b => le_total _ _⟩
  haveI : IsTrans youtubeVideo r := ⟨fun a b c hab hbc => le_trans hbc hab⟩
  refine ⟨s.insertionSort r, ?_⟩
  obtain ⟨ops, hops⟩ := exists_swaps_of_perm (List.perm_insertionSort r s).symm
  exact ⟨ops, hops, (IsSorted_iff_pairwise _).mpr (List.sorted_insertionSort r s)⟩

/-- Two rankings of the same videos show the same timestamps position by
position, and are equal when no two videos share a timestamp. -/
theorem ranked_perm_unique {t u : youtubeVideoSlice} (hp : u.Perm t)
    (ht : IsSorted t = true) (hu : IsSorted u = true) :
    u.map (fun v => v.timestamp) = t.map (fun v => v.timestamp) ∧
      ((t.map (fun v => v.timestamp)).Nodup → u = t) := by
  let r : Time → Time → Prop := fun a b => b.nanos ≤ a.nanos
  haveI : IsAntisymm Time r :=
    ⟨fun a b hab hba => by
      cases a; cases b
      simp only [r] at hab hba
      simp only [Time.mk.injEq]
      omega⟩
  have hst : (t.map (fun v => v.timestamp)).Sorted r :=
    List.pairwise_map.mpr ((IsSorted_iff_pairwise t).mp ht)
  have hsu : (u.map (fun v => v.timestamp)).Sorted r :=
    List.pairwise_map.mpr ((IsSorted_iff_pairwise u).mp hu)
  have hmap : u.map (fun v => v.timestamp) = t.map (fun v => v.timestamp) :=
    List.eq_of_perm_of_sorted (hp.map _) hsu hst
  refine ⟨hmap, fun hnd => ?_⟩
  have hinj := List.inj_on_of_nodup_map hnd
  -- both lists list the same videos; compare them position by position
  apply List.ext_getElem (hp.length_eq)
  intro i hi₁ hi₂
  have hti : u[i].timestamp = t[i].timestamp := by
    have := congrArg (fun l => l[i]?) hmap
    simpa [List.getElem?_map, List.getElem?_eq_getElem hi₁, List.getElem?_eq_getElem hi₂]
      using this
  exact hinj (hp.subset (List.getElem_mem _)) (List.getElem_mem _) hti

end RankingOrder

/-! ## Properties of the collection loop -/

section Collection

theorem sum_map_set {α : Type} (f : α → Nat) (x y : α) :
    ∀ (l : List α) (i : Nat), l[i]? = some y →
      ((l.set i x).map f).sum + f y = (l.map f).sum + f x := by
  intro l
  induction l with
  | nil => intro i h; simp at h
  | cons a l ih =>
    intro i h
    cases i with
    | zero =>
      simp only [List.getElem?_cons_zero, Option.some.injEq] at h
      subst h
      simp only [List.set_cons_zero, List.map_cons, List.sum_cons]
      omega
    | succ i =>
      simp only [List.getElem?_cons_succ] at h
      have := ih i h
      simp only [List.set_cons_succ, List.map_cons, List.sum_cons]
      omega

theorem countP_set {α : Type} (q : α → Bool) (x y : α) :
    ∀ (l : List α) (i : Nat), l[i]? = some y →
      (l.set i x).countP q + (if q y then 1 else 0) = l.countP q + (if q x then 1 else 0) := by
  intro l
  induction l with
  | nil => intro i h; simp at h
  | cons a l ih =>
    intro i h
    cases i with
    | zero =>
      simp only [List.getElem?_cons_zero, Option.some.injEq] at h
      subst h
      simp only [List.set_cons_zero, List.countP_cons]
      omega
    | succ i =>
      simp only [List.getElem?_cons_succ] at h
      have := ih i h
      simp only [List.set_cons_succ, List.countP_cons]
      omega

/-- An append to a bucket adds one video to the buckets. -/
theorem bucketAppend_count (v : youtubeVideo) :
    ∀ (b b' : List (String × List youtubeVideo)), bucketAppend v b = some b' →
      (b'.map (fun x => x.2.length)).sum = (b.map (fun x => x.2.length)).sum + 1 := by
  intro b
  induction b with
  | nil => intro b' h; simp [bucketAppend] at h
  | cons x rest ih =>
    intro b' h
    obtain ⟨a, vs⟩ := x
    unfold bucketAppend at h
    split at h
    · simp only [Option.some.injEq] at h
      subst h
      simp only [List.map_cons, List.sum_cons, List.length_append, List.length_singleton]
      omega
    · cases hr : bucketAppend v rest with
      | none => simp [hr] at h
      | some rest' =>
        simp only [hr, Option.some.injEq] at h
        subst h
        have := ih rest' hr
        simp only [List.map_cons, List.sum_cons]
        omega

/-- No step creates, duplicates or destroys a video: the videos in the
buckets, in the buffer and still to be sent stay the same in number. -/
theorem step_conserves {p p' : Pipeline} {a : Action} (h : step p a = some p') :
    collectedCount p' + bufferedCount p' + pendingCount p' =
      collectedCount p + bufferedCount p + pendingCount p := by
  unfold step at h
  split at h
  · cases h
  · cases a with
    | send i =>
      simp only at h
      split at h
      · rename_i v rest hf hb
        simp only [Option.some.injEq] at h
        subst h
        have := sum_map_set (fun f : Fetcher => f.toSend.length) ⟨rest, false⟩ _ p.fetchers i hf
        simp only [List.length_cons] at this
        simp only [collectedCount, bufferedCount, pendingCount, hb]
        omega
      · cases h
    | ret i =>
      simp only at h
      split at h
      · rename_i hf
        split at h
        · simp only [Option.some.injEq] at h
          subst h
          rfl
        · simp only [Option.some.injEq] at h
          subst h
          have := sum_map_set (fun f : Fetcher => f.toSend.length) ⟨[], true⟩ _ p.fetchers i hf
          simp only [List.length_nil] at this
          simp only [collectedCount, bufferedCount, pendingCount]
          omega
      · cases h
    | close =>
      simp only at h
      split at h
      · simp only [Option.some.injEq] at h
        subst h
        rfl
      · cases h
    | recv =>
      simp only at h
      split at h
      · rename_i v hd hb
        split at h
        · cases h
        · rename_i buckets' hbk
          simp only [Option.some.injEq] at h
          subst h
          have := bucketAppend_count v _ _ hbk
          simp only [collectedCount, bufferedCount, pendingCount, hb, this]
      · cases h
    | takeDone =>
      simp only at h
      split at h
      · simp only [Option.some.injEq] at h
        subst h
        rfl
      · cases h

/-- Every step keeps the state consistent. -/
theorem step_consistent {p p' : Pipeline} {a : Action} (h : step p a = some p')
    (hc : p.Consistent) : p'.Consistent := by
  obtain ⟨hwg, hret, hclosed, hdone⟩ := hc
  unfold step at h
  split at h
  · cases h
  · cases a with
    | send i =>
      simp only at h
      split at h
      · rename_i v rest hf hb
        simp only [Option.some.injEq] at h
        subst h
        have := countP_set (fun f : Fetcher => !f.returned) ⟨rest, false⟩ _ p.fetchers i hf
        simp only [Bool.not_false, if_true] at this
        refine ⟨?_, ?_, hclosed, hdone⟩
        · simp only [runningCount] at hwg ⊢
          omega
        · intro f hmem hr
          rcases List.mem_or_eq_of_mem_set hmem with hm | rfl
          · exact hret f hm hr
          · cases hr
      · cases h
    | ret i =>
      simp only at h
      split at h
      · rename_i hf
        split at h
        · simp only [Option.some.injEq] at h
          subst h
          exact ⟨hwg, hret, hclosed, hdone⟩
        · simp only [Option.some.injEq] at h
          subst h
          have := countP_set (fun f : Fetcher => !f.returned) ⟨[], true⟩ _ p.fetchers i hf
          simp only [Bool.not_false, Bool.not_true, if_true] at this
          refine ⟨?_, ?_, ?_, hdone⟩
          · simp only [runningCount] at hwg ⊢
            simp at this
            omega
          · intro f hmem hr
            rcases List.mem_or_eq_of_mem_set hmem with hm | rfl
            · exact hret f hm hr
            · rfl
          · intro hd
            have := hclosed hd
            simp only
            omega
      · cases h
    | close =>
      simp only at h
      split at h
      · rename_i hcond
        simp only [Option.some.injEq] at h
        subst h
        exact ⟨hwg, hret, fun _ => hcond.1, fun hd => rfl⟩
      · cases h
    | recv =>
      simp only at h
      split at h
      · split at h
        · cases h
        · simp only [Option.some.injEq] at h
          subst h
          exact ⟨hwg, hret, hclosed, hdone⟩
      · cases h
    | takeDone =>
      simp only at h
      split at h
      · rename_i hcond
        simp only [Option.some.injEq] at h
        subst h
        exact ⟨hwg, hret, hclosed, fun _ => hcond.2⟩
      · cases h

theorem runSteps_conserves (acts : List Action) :
    ∀ {p p' : Pipeline}, runSteps p acts = some p' →
      collectedCount p' + bufferedCount p' + pendingCount p' =
        collectedCount p + bufferedCount p + pendingCount p := by
  induction acts with
  | nil => intro p p' h; simp [runSteps] at h; subst h; rfl
  | cons a acts ih =>
    intro p p' h
    unfold runSteps at h
    cases hs : step p a with
    | none => simp [hs] at h
    | some q =>
      simp only [hs] at h
      rw [ih h, step_conserves hs]

theorem runSteps_consistent (acts : List Action) :
    ∀ {p p' : Pipeline}, runSteps p acts = some p' → p.Consistent → p'.Consistent := by
  induction acts with
  | nil => intro p p' h hc; simp [runSteps] at h; subst h; exact hc
  | cons a acts ih =>
    intro p p' h hc
    unfold runSteps at h
    cases hs : step p a with
    | none => simp [hs] at h
    | some q =>
      simp only [hs] at h
      exact ih h (step_consistent hs hc)

theorem startPipeline_consistent (accounts : List String) (runs : List FetchRun) :
    (startPipeline accounts runs).Consistent := by
  refine ⟨?_, ?_, ?_, ?_⟩
  · simp only [startPipeline, runningCount]
    induction runs with
    | nil => rfl
    | cons r rs ih => simp only [List.length_cons, List.map_cons, List.countP_cons, Bool.not_false,
        if_true, ih]
  · intro f hf hr
    simp only [startPipeline, List.mem_map] at hf
    obtain ⟨r, _, rfl⟩ := hf
    cases hr
  · intro h; cases h
  · intro h; cases h

theorem startPipeline_counts (accounts : List String) (runs : List FetchRun) :
    collectedCount (startPipeline accounts runs) +
        bufferedCount (startPipeline accounts runs) +
        pendingCount (startPipeline accounts runs) =
      (runs.map (fun r => r.sent.length)).sum := by
  have h₁ : collectedCount (startPipeline accounts runs) = 0 := by
    simp only [collectedCount, startPipeline]
    induction accounts with
    | nil => rfl
    | cons a as ih => simpa using ih
  have h₂ : pendingCount (startPipeline accounts runs) =
      (runs.map (fun r => r.sent.length)).sum := by
    simp only [pendingCount, startPipeline, List.map_map]
    rfl
  rw [h₁, h₂]
  simp [bufferedCount, startPipeline]

/-- A consistent state in which `isDone` is set has nothing left to send. -/
theorem pendingCount_eq_zero_of_isDone {p : Pipeline} (hc : p.Consistent)
    (hd : p.isDone = true) : pendingCount p = 0 := by
  obtain ⟨hwg, hret, hclosed, hdone⟩ := hc
  have hz : runningCount p = 0 := by rw [← hwg]; exact hclosed (hdone hd)
  simp only [runningCount, List.countP_eq_zero] at hz
  simp only [pendingCount]
  apply List.sum_eq_zero
  intro n hn
  simp only [List.mem_map] at hn
  obtain ⟨f, hf, rfl⟩ := hn
  have hr : f.returned = true := by
    have := hz f hf
    simpa using this
  simp [hret f hf hr]

/-- A fetcher whose duration lookup panics ends the process when it leaves
its loop: the state is marked crashed, `done` is never closed and the
collection loop never stops. -/
theorem panic_ends_the_process :
    runSteps
        (startPipeline ["acct"]
          [fetchLoop exampleWorld "acct" exampleChannel exampleCutoff 5 true 0
            [⟨"t1", "c", "2021-01-07T23:00:00Z"⟩]])
        [.ret 0] =
      some { fetchers := [⟨[], false⟩], chanBuf := none, wg := 1, doneClosed := false,
             buckets := [("acct", [])], isDone := false, panics := [0], crashed := true } ∧
    ∀ a : Action,
      runSteps
          (startPipeline ["acct"]
            [fetchLoop exampleWorld "acct" exampleChannel exampleCutoff 5 true 0
              [⟨"t1", "c", "2021-01-07T23:00:00Z"⟩]])
          [.ret 0, a] = none := by
  refine ⟨by decide, ?_⟩
  intro a
  have h : runSteps
      (startPipeline ["acct"]
        [fetchLoop exampleWorld "acct" exampleChannel exampleCutoff 5 true 0
          [⟨"t1", "c", "2021-01-07T23:00:00Z"⟩]])
      [.ret 0] =
      some { fetchers := [⟨[], false⟩], chanBuf := none, wg := 1, doneClosed := false,
             buckets := [("acct", [])], isDone := false, panics := [0], crashed := true } := by
    decide
  simp only [runSteps] at h ⊢
  split at h
  · cases h
  · rename_i q hq
    simp only [Option.some.injEq] at h
    subst h
    simp [hq, step]

end Collection

/-! ## The claims about `fetch` -/

/-- C1. Every video the loop of `fetch` sends on the channel, for any list of
entries, any cutoff, any max count and either enrichment setting, carries the
timestamp parsed from one of the entries, and that timestamp is on or after
the cutoff; so every video a run of `fetch` sends is on or after the cutoff. -/
theorem fetch_sent_on_or_after_cutoff (w : World) (account : String) (ch : channel)
    (timestampCutoff : Time) (maxEntries : Int) (fetchDuration : Bool)
    (entries : List entry) (v : youtubeVideo)
    (hv : v ∈ (fetchLoop w account ch timestampCutoff maxEntries fetchDuration 0 entries).sent) :
    timestampCutoff.nanos ≤ v.timestamp.nanos ∧
      v.timestamp.Before timestampCutoff = false ∧
      (∃ e ∈ entries, w.timeParse e.Published = some v.timestamp) ∧
      ∀ v' ∈ (fetch w account ch timestampCutoff maxEntries fetchDuration).sent,
        timestampCutoff.nanos ≤ v'.timestamp.nanos := by
  obtain ⟨hb, e, he, hp, _⟩ :=
    fetchLoop_sent_spec w account ch timestampCutoff maxEntries fetchDuration entries 0 v hv
  refine ⟨(before_eq_false_iff _ _).mp hb, hb, ⟨e, he, hp⟩, ?_⟩
  intro v' hv'
  rcases fetch_eq_halt_or_loop w account ch timestampCutoff maxEntries fetchDuration with
    h | ⟨es, h⟩
  · simp [h, FetchRun.halt] at hv'
  · rw [h] at hv'
    exact (before_eq_false_iff _ _).mp
      (fetchLoop_sent_spec w account ch timestampCutoff maxEntries fetchDuration es 0 v' hv').1

/-- C1 at a feed of five entries, one of them malformed and one older than the
cutoff, with enrichment on: the video of the third entry is sent and is not
before the cutoff. -/
theorem fetch_sent_on_or_after_cutoff_witness :
    parsedVideo exampleWorld "acct" exampleChannel ⟨"t2", "a", "2021-01-05T00:00:00Z"⟩ "02:05"
        ⟨exampleNow - 3 * day⟩ ∈
      (fetchLoop exampleWorld "acct" exampleChannel exampleCutoff 5 true 0
        [⟨"t1", "x", "2021-01-07T23:00:00Z"⟩, ⟨"t0", "y", "yesterday"⟩, ⟨"t2", "a", "2021-01-05T00:00:00Z"⟩,
         ⟨"t3", "z", "2020-12-29T00:00:00Z"⟩, ⟨"t4", "x", "2021-01-07T22:00:00Z"⟩]).sent ∧
    exampleCutoff.nanos ≤ (exampleNow - 3 * day : Int) :=
  ⟨by decide,
   (fetch_sent_on_or_after_cutoff exampleWorld "acct" exampleChannel exampleCutoff 5 true
      [⟨"t1", "x", "2021-01-07T23:00:00Z"⟩, ⟨"t0", "y", "yesterday"⟩, ⟨"t2", "a", "2021-01-05T00:00:00Z"⟩,
       ⟨"t3", "z", "2020-12-29T00:00:00Z"⟩, ⟨"t4", "x", "2021-01-07T22:00:00Z"⟩]
      (parsedVideo exampleWorld "acct" exampleChannel ⟨"t2", "a", "2021-01-05T00:00:00Z"⟩ "02:05"
        ⟨exampleNow - 3 * day⟩) (by decide)).1⟩

/-- C2. For any list of entries, any cutoff and any positive `maxEntries`, the
loop of `fetch` sends at most `maxEntries` videos, and so does every run of
`fetch` for one target. -/
theorem fetch_sent_at_most_maxEntries (w : World) (account : String) (ch : channel)
    (timestampCutoff : Time) (maxEntries : Int) (fetchDuration : Bool)
    (entries : List entry) (hmax : 0 < maxEntries) :
    ((fetchLoop w account ch timestampCutoff maxEntries fetchDuration 0 entries).sent.length
      : Int) ≤ maxEntries ∧
    ((fetch w account ch timestampCutoff maxEntries fetchDuration).sent.length : Int) ≤
      maxEntries := by
  have key : ∀ es : List entry,
      ((fetchLoop w account ch timestampCutoff maxEntries fetchDuration 0 es).sent.length
        : Int) ≤ maxEntries := by
    intro es
    have := fetchLoop_sent_length w account ch timestampCutoff maxEntries fetchDuration es 0
      (by push_cast; omega)
    simpa using this
  refine ⟨key entries, ?_⟩
  rcases fetch_eq_halt_or_loop w account ch timestampCutoff maxEntries fetchDuration with
    h | ⟨es, h⟩
  · rw [h]; simp only [FetchRun.halt, List.length_nil]; push_cast; omega
  · rw [h]; exact key es

/-- C2 at a feed of three recent entries with `maxEntries` 2: two videos are
sent. -/
theorem fetch_sent_at_most_maxEntries_witness :
    (fetchLoop exampleWorld "acct" exampleChannel exampleCutoff 2 false 0
        [⟨"t1", "x", "2021-01-07T23:00:00Z"⟩, ⟨"t2", "y", "2021-01-07T22:00:00Z"⟩, ⟨"t3", "z", "2021-01-05T00:00:00Z"⟩]).sent.length = 2 ∧
    ((fetchLoop exampleWorld "acct" exampleChannel exampleCutoff 2 false 0
        [⟨"t1", "x", "2021-01-07T23:00:00Z"⟩, ⟨"t2", "y", "2021-01-07T22:00:00Z"⟩, ⟨"t3", "z", "2021-01-05T00:00:00Z"⟩]).sent.length : Int) ≤ 2 :=
  ⟨by decide,
   (fetch_sent_at_most_maxEntries exampleWorld "acct" exampleChannel exampleCutoff 2 false
     [⟨"t1", "x", "2021-01-07T23:00:00Z"⟩, ⟨"t2", "y", "2021-01-07T22:00:00Z"⟩, ⟨"t3", "z", "2021-01-05T00:00:00Z"⟩] (by decide)).1⟩

/-- C3: the code does what the claim says of the scan, but not what it says
of the scenario when a duration lookup panics. The scan stops at the first
entry whose timestamp is strictly before the cutoff: whatever stands at or
behind an entry that parses to an instant before the cutoff has no effect on
what is sent, the videos sent are those the entries in front of it give, and
their titles and ids follow those entries in order. In the scenario with
timestamps `T-1h`, `T-2h`, `T-10d`, cutoff `T-7d` and `maxEntries` 5, exactly
the videos of the first two entries are sent, in source order, whenever the
duration lookups of those two return (`d₁` and `d₂`), which they always do
with enrichment off. With enrichment on and an info page without a length
field for the first entry, as for video `"c"` of the example world,
`getDurationStr` panics on the first entry and nothing is sent. -/
theorem fetch_scan_stops_at_first_old_entry (w : World) (account : String) (ch : channel)
    (timestampCutoff : Time) (maxEntries : Int) (fetchDuration : Bool)
    (pre post : List entry) (e : entry) (t : Time)
    (hparse : w.timeParse e.Published = some t)
    (hold : t.Before timestampCutoff = true) :
    (fetchLoop w account ch timestampCutoff maxEntries fetchDuration 0 (pre ++ e :: post)).sent =
        (fetchLoop w account ch timestampCutoff maxEntries fetchDuration 0 pre).sent ∧
      ((fetchLoop w account ch timestampCutoff maxEntries fetchDuration 0
          (pre ++ e :: post)).sent.map (fun v => (v.Title, v.VideoID))).Sublist
        (pre.map (fun x => (x.Title, x.VideoID))) ∧
      (∀ (T : Int) (e₁ e₂ e₃ : entry) (d₁ d₂ : String),
        w.timeParse e₁.Published = some ⟨T - hour⟩ →
        w.timeParse e₂.Published = some ⟨T - 2 * hour⟩ →
        w.timeParse e₃.Published = some ⟨T - 10 * day⟩ →
        lookupDuration w fetchDuration e₁.VideoID = some d₁ →
        lookupDuration w fetchDuration e₂.VideoID = some d₂ →
        (fetchLoop w account ch ⟨T - 7 * day⟩ 5 fetchDuration 0 [e₁, e₂, e₃]).sent =
          [parsedVideo w account ch e₁ d₁ ⟨T - hour⟩,
           parsedVideo w account ch e₂ d₂ ⟨T - 2 * hour⟩]) ∧
      (exampleWorld.timeParse "2021-01-07T23:00:00Z" = some ⟨exampleNow - hour⟩ ∧
        exampleWorld.timeParse "2021-01-07T22:00:00Z" = some ⟨exampleNow - 2 * hour⟩ ∧
        exampleWorld.timeParse "2020-12-29T00:00:00Z" = some ⟨exampleNow - 10 * day⟩ ∧
        getDurationStr exampleWorld "c" = none ∧
        fetchLoop exampleWorld "acct" exampleChannel ⟨exampleNow - 7 * day⟩ 5 true 0
            [⟨"t1", "c", "2021-01-07T23:00:00Z"⟩, ⟨"t2", "a", "2021-01-07T22:00:00Z"⟩,
             ⟨"t3", "a", "2020-12-29T00:00:00Z"⟩] =
          { sent := [], lookups := ["c"], skipped := [], stop := .fault }) := by
  have key := fetchLoop_sent_append_old w account ch timestampCutoff maxEntries fetchDuration
    e post hparse hold pre 0
  refine ⟨key, ?_, ?_, by decide, by decide, by decide, by decide, by decide⟩
  · rw [key]
    exact fetchLoop_sent_sublist w account ch timestampCutoff maxEntries fetchDuration pre 0
  · intro T e₁ e₂ e₃ d₁ d₂ h₁ h₂ h₃ hl₁ hl₂
    have hb₁ : (⟨T - hour⟩ : Time).Before ⟨T - 7 * day⟩ = false := by
      simp [Time.Before, hour, day]
    have hb₂ : (⟨T - 2 * hour⟩ : Time).Before ⟨T - 7 * day⟩ = false := by
      simp [Time.Before, hour, day]
    have hb₃ : (⟨T - 10 * day⟩ : Time).Before ⟨T - 7 * day⟩ = true := by
      simp [Time.Before, hour, day]
    have := fetchLoop_sent_append_old w account ch ⟨T - 7 * day⟩ 5 fetchDuration
      e₃ [] h₃ hb₃ [e₁, e₂] 0
    rw [show [e₁, e₂, e₃] = [e₁, e₂] ++ e₃ :: [] from rfl, this,
      fetchLoop_cons_send _ _ _ _ _ _ _ _ (by decide) hl₁ h₁ hb₁,
      fetchLoop_cons_send _ _ _ _ _ _ _ _ (by decide) hl₂ h₂ hb₂, fetchLoop_nil]
    rfl

/-- C3 at a feed whose third entry is ten days old and whose fourth is three
days old, and at the scenario of the claim with `T` the instant
`exampleNow`. -/
theorem fetch_scan_stops_at_first_old_entry_witness :
    exampleWorld.timeParse "2020-12-29T00:00:00Z" = some ⟨exampleNow - 10 * day⟩ ∧
    (fetchLoop exampleWorld "acct" exampleChannel exampleCutoff 5 false 0
        ([⟨"t1", "x", "2021-01-07T23:00:00Z"⟩, ⟨"t2", "y", "2021-01-07T22:00:00Z"⟩] ++
          ⟨"t3", "z", "2020-12-29T00:00:00Z"⟩ :: [⟨"t4", "u", "2021-01-05T00:00:00Z"⟩])).sent =
      (fetchLoop exampleWorld "acct" exampleChannel exampleCutoff 5 false 0
        [⟨"t1", "x", "2021-01-07T23:00:00Z"⟩, ⟨"t2", "y", "2021-01-07T22:00:00Z"⟩]).sent ∧
    (fetchLoop exampleWorld "acct" exampleChannel exampleCutoff 5 false 0
        [⟨"t1", "x", "2021-01-07T23:00:00Z"⟩, ⟨"t2", "y", "2021-01-07T22:00:00Z"⟩, ⟨"t3", "z", "2020-12-29T00:00:00Z"⟩]).sent =
      [parsedVideo exampleWorld "acct" exampleChannel ⟨"t1", "x", "2021-01-07T23:00:00Z"⟩ ""
          ⟨exampleNow - hour⟩,
       parsedVideo exampleWorld "acct" exampleChannel ⟨"t2", "y", "2021-01-07T22:00:00Z"⟩ ""
          ⟨exampleNow - 2 * hour⟩] :=
  ⟨by decide,
   (fetch_scan_stops_at_first_old_entry exampleWorld "acct" exampleChannel exampleCutoff 5
      false [⟨"t1", "x", "2021-01-07T23:00:00Z"⟩, ⟨"t2", "y", "2021-01-07T22:00:00Z"⟩] [⟨"t4", "u", "2021-01-05T00:00:00Z"⟩]
      ⟨"t3", "z", "2020-12-29T00:00:00Z"⟩ ⟨exampleNow - 10 * day⟩ (by decide) (by decide)).1,
   (fetch_scan_stops_at_first_old_entry exampleWorld "acct" exampleChannel exampleCutoff 5
      false [] [] ⟨"t3", "z", "2020-12-29T00:00:00Z"⟩ ⟨exampleNow - 10 * day⟩ (by decide) (by decide)).2.2.1
      (exampleNow) ⟨"t1", "x", "2021-01-07T23:00:00Z"⟩ ⟨"t2", "y", "2021-01-07T22:00:00Z"⟩ ⟨"t3", "z", "2020-12-29T00:00:00Z"⟩ "" ""
      (by decide) (by decide) (by decide) (by decide) (by decide)⟩

/-! ## The claim about the duration lookup -/

/-- C6: the code does not do what the claim says. A transport error, a
status outside 200..399 and an unreadable body each make `getDurationStr`
return the empty string, as the claim says. But a readable reply without a
length field leaves `res` nil, and `res[len(res)-1]` panics: `getDurationStr`
returns nothing, the loop of `fetch` ends in that panic and the entry's video
is not sent. And a length field that `strconv.Atoi` rejects as no number
gives `"00:00"`, the error being dropped, not the empty string. Shown for
every world, and at the lookups of videos `"c"` (no length field) and `"b"`
(length `abc`) of the example world. -/
theorem getDurationStr_not_always_empty :
    (FindStringSubmatch "lengthSeconds%22%3A%22abc%22".toList).getLast? = some "abc" ∧
    (Atoi "abc").2 = some .syntaxError ∧
    getDurationStr exampleWorld "b" = some "00:00" ∧
    getDurationStr exampleWorld "b" ≠ some "" ∧
    FindStringSubmatch "status=fail".toList = [] ∧
    getDurationStr exampleWorld "c" = none ∧
    fetchLoop exampleWorld "acct" exampleChannel exampleCutoff 5 true 0
        [⟨"t1", "c", "2021-01-07T23:00:00Z"⟩] =
      { sent := [], lookups := ["c"], skipped := [], stop := .fault } ∧
    (∀ (w : World) (videoID : String) (status : Int) (body : String),
      w.httpGet ("http://youtube.com/get_video_info?video_id=" ++ videoID) =
        .response status (some body) →
      200 ≤ status → status < 400 →
      FindStringSubmatch body.toList = [] →
      getDurationStr w videoID = none) ∧
    (∀ (w : World) (videoID : String) (status : Int) (body last : String),
      w.httpGet ("http://youtube.com/get_video_info?video_id=" ++ videoID) =
        .response status (some body) →
      200 ≤ status → status < 400 →
      (FindStringSubmatch body.toList).getLast? = some last →
      (Atoi last).2 = some .syntaxError →
      getDurationStr w videoID = some "00:00") ∧
    (∀ (w : World) (videoID : String),
      w.httpGet ("http://youtube.com/get_video_info?video_id=" ++ videoID) =
        .transportError →
      getDurationStr w videoID = some "") ∧
    (∀ (w : World) (videoID : String) (status : Int) (body : Option String),
      w.httpGet ("http://youtube.com/get_video_info?video_id=" ++ videoID) =
        .response status body →
      status < 200 ∨ 400 ≤ status → getDurationStr w videoID = some "") ∧
    (∀ (w : World) (videoID : String) (status : Int),
      w.httpGet ("http://youtube.com/get_video_info?video_id=" ++ videoID) =
        .response status none →
      getDurationStr w videoID = some "") := by
  refine ⟨by decide, by decide, by decide, by decide, by decide, by decide, by decide,
    ?_, ?_, ?_, ?_, ?_⟩
  · intro w videoID status body h hs₁ hs₂ hres
    exact getDurationStr_noMatch w videoID h hs₁ hs₂ hres
  · intro w videoID status body last h hs₁ hs₂ hres hnum
    exact getDurationStr_notANumber w videoID h hs₁ hs₂ hres hnum
  · intro w videoID h
    exact getDurationStr_transportError w videoID h
  · intro w videoID status body h hs
    exact getDurationStr_badStatus w videoID h hs
  · intro w videoID status h
    exact getDurationStr_unreadable w videoID h

/-! ## The claims about malformed timestamps and the number of lookups -/

/-- C7, as stated, fails. With `maxEntries` 2 and a first entry whose
timestamp cannot be parsed, the loop sends the video of the second entry only;
for the same feed without the unparsable entry it sends two videos. -/
theorem fetch_malformed_entry_uses_up_count :
    (fetchLoop exampleWorld "acct" exampleChannel exampleCutoff 2 false 0
        [⟨"t0", "w", "yesterday"⟩, ⟨"t1", "x", "2021-01-07T23:00:00Z"⟩, ⟨"t2", "y", "2021-01-07T22:00:00Z"⟩]).sent.length = 1 ∧
    (fetchLoop exampleWorld "acct" exampleChannel exampleCutoff 2 false 0
        ([⟨"t0", "w", "yesterday"⟩, ⟨"t1", "x", "2021-01-07T23:00:00Z"⟩, ⟨"t2", "y", "2021-01-07T22:00:00Z"⟩].filter
          (fun e => (exampleWorld.timeParse e.Published).isSome))).sent.length = 2 ∧
    (fetchLoop exampleWorld "acct" exampleChannel exampleCutoff 2 false 0
        [⟨"t0", "w", "yesterday"⟩, ⟨"t1", "x", "2021-01-07T23:00:00Z"⟩, ⟨"t2", "y", "2021-01-07T22:00:00Z"⟩]).sent ≠
      (fetchLoop exampleWorld "acct" exampleChannel exampleCutoff 2 false 0
        ([⟨"t0", "w", "yesterday"⟩, ⟨"t1", "x", "2021-01-07T23:00:00Z"⟩, ⟨"t2", "y", "2021-01-07T22:00:00Z"⟩].filter
          (fun e => (exampleWorld.timeParse e.Published).isSome))).sent := by
  refine ⟨by decide, by decide, by decide⟩

/-- C7, amended. An entry with a malformed timestamp is skipped without
stopping the scan, but it counts toward `maxEntries`: when no duration lookup
panics, the videos the loop sends for a feed are the videos it sends for the
first `maxEntries` entries of that feed with the malformed ones deleted. -/
theorem fetch_skips_malformed_within_count (w : World) (account : String) (ch : channel)
    (timestampCutoff : Time) (maxEntries : Int) (fetchDuration : Bool)
    (entries : List entry)
    (hlook : fetchDuration = true →
      ∀ e ∈ entries, (getDurationStr w e.VideoID).isSome = true) :
    (fetchLoop w account ch timestampCutoff maxEntries fetchDuration 0 entries).sent =
      (fetchLoop w account ch timestampCutoff maxEntries fetchDuration 0
        ((entries.take maxEntries.toNat).filter
          (fun e => (w.timeParse e.Published).isSome))).sent := by
  have := fetchLoop_sent_filter w account ch timestampCutoff maxEntries fetchDuration entries
    hlook 0 0 (le_refl 0)
  simpa using this

/-- C7, amended, at a feed of three entries, the first malformed, with
`maxEntries` 2 and enrichment on: the video of the second entry only is sent. -/
theorem fetch_skips_malformed_within_count_witness :
    (fetchLoop exampleWorld "acct" exampleChannel exampleCutoff 2 true 0
        [⟨"t0", "a", "yesterday"⟩, ⟨"t1", "b", "2021-01-07T23:00:00Z"⟩, ⟨"t2", "d", "2021-01-07T22:00:00Z"⟩]).sent =
      (fetchLoop exampleWorld "acct" exampleChannel exampleCutoff 2 true 0
        [⟨"t1", "b", "2021-01-07T23:00:00Z"⟩]).sent :=
  fetch_skips_malformed_within_count exampleWorld "acct" exampleChannel exampleCutoff 2 true
    [⟨"t0", "a", "yesterday"⟩, ⟨"t1", "b", "2021-01-07T23:00:00Z"⟩, ⟨"t2", "d", "2021-01-07T22:00:00Z"⟩] (by decide)

/-- C9, as stated, fails. With enrichment on, an entry whose timestamp cannot
be parsed costs one lookup and sends nothing, and so does the entry older than
the cutoff that ends the scan. -/
theorem fetch_looks_up_before_checking :
    fetchLoop exampleWorld "acct" exampleChannel exampleCutoff 5 true 0
        [⟨"t0", "a", "yesterday"⟩] =
      { sent := [], lookups := ["a"], skipped := ["a"], stop := .exhausted } ∧
    fetchLoop exampleWorld "acct" exampleChannel exampleCutoff 5 true 0
        [⟨"t1", "a", "2020-12-29T00:00:00Z"⟩, ⟨"t2", "b", "2021-01-07T23:00:00Z"⟩] =
      { sent := [], lookups := ["a"], skipped := [], stop := .cutoff } ∧
    (fetchLoop exampleWorld "acct" exampleChannel exampleCutoff 5 true 0
        [⟨"t0", "a", "yesterday"⟩]).lookups.length ≠
      (fetchLoop exampleWorld "acct" exampleChannel exampleCutoff 5 true 0
        [⟨"t0", "a", "yesterday"⟩]).sent.length := by
  refine ⟨by decide, by decide, by decide⟩

/-- C9, amended. With enrichment on, the loop of `fetch` calls
`getDurationStr` once for every entry it examines: once for every video it
sends, once for every entry it skips for a malformed timestamp, once for the
entry older than the cutoff that ends the scan, and once for the call that
panics; so the calls are at least as many as the videos sent. With enrichment
off it makes no call and every video sent has the empty duration string. -/
theorem fetch_lookups_count (w : World) (account : String) (ch : channel)
    (timestampCutoff : Time) (maxEntries : Int) (entries : List entry) :
    (fetchLoop w account ch timestampCutoff maxEntries true 0 entries).lookups.length =
        (fetchLoop w account ch timestampCutoff maxEntries true 0 entries).sent.length +
        (fetchLoop w account ch timestampCutoff maxEntries true 0 entries).skipped.length +
        (if (fetchLoop w account ch timestampCutoff maxEntries true 0 entries).stop = .cutoff
          then 1 else 0) +
        (if (fetchLoop w account ch timestampCutoff maxEntries true 0 entries).stop = .fault
          then 1 else 0) ∧
      (fetchLoop w account ch timestampCutoff maxEntries true 0 entries).sent.length ≤
        (fetchLoop w account ch timestampCutoff maxEntries true 0 entries).lookups.length ∧
      (fetchLoop w account ch timestampCutoff maxEntries false 0 entries).lookups = [] ∧
      ∀ v ∈ (fetchLoop w account ch timestampCutoff maxEntries false 0 entries).sent,
        v.DurationStr = "" := by
  have h₁ := fetchLoop_lookups_length w account ch timestampCutoff maxEntries true entries 0
  have h₂ := fetchLoop_lookups_length w account ch timestampCutoff maxEntries false entries 0
  simp only [if_true] at h₁
  refine ⟨h₁, by omega, ?_, ?_⟩
  · exact List.length_eq_zero.mp (by simpa using h₂)
  · exact fetchLoop_sent_duration_empty w account ch timestampCutoff maxEntries entries 0

/-! ## The claim about the arguments -/

/-- C8: the code does not do what the claim and the help text say. With the
arguments `all 10 true` the count `10` is a well-formed integer, yet `main`
passes the default 5 to every `fetch`; the count is read only when exactly two
arguments are given, so with a third argument present `entries` is always the
default. With the arguments `all 10` the count is used. -/
theorem main_ignores_count_when_flag_given :
    Atoi "10" = (10, none) ∧
    mainSettings ["youtube-feeds", "all", "10", "true"] [] =
      some { account := "", checkAllIntoOne := true, entries := 5, fetchDuration := true } ∧
    mainSettings ["youtube-feeds", "all", "10"] [] =
      some { account := "", checkAllIntoOne := true, entries := 10, fetchDuration := false } ∧
    ∀ (a₀ a₁ a₂ a₃ : String) (accountBases : List String) (st : Settings),
      mainSettings [a₀, a₁, a₂, a₃] accountBases = some st →
      st.entries = defaultEntriesPerChannel := by
  refine ⟨by decide, by decide, by decide, ?_⟩
  intro a₀ a₁ a₂ a₃ accountBases st h
  unfold mainSettings at h
  simp only [List.length_cons, List.length_nil] at h
  split at h
  · split at h
    · cases h
    · simp only [Option.some.injEq] at h
      subst h
      simp
  · cases h

/-! ## The claim about the collection loop -/

/-- C4: the code does not do what the claim says. One target, whose feed
has one recent entry: its fetcher sends one video; the send puts it in the
buffer slot of `youtubeVideoChan`, the fetcher returns, `done` is closed, and
the `select` of `main`, with both cases ready, takes `<-done`: the loop stops
with the video still in the channel and the bucket empty. What the code does
ensure, for every number of fetchers and every interleaving: when the loop
stops, the videos in the buckets and the one the buffer may still hold are
together as many as the fetchers sent, so nothing is duplicated and at most
one video is lost. -/
theorem collection_loop_can_lose_a_video :
    (fetch exampleWorld "acct" exampleChannel exampleCutoff 5 false).sent.length = 1 ∧
    runSteps
        (startPipeline ["acct"]
          [fetch exampleWorld "acct" exampleChannel exampleCutoff 5 false])
        [.send 0, .ret 0, .close, .takeDone] =
      some { fetchers := [⟨[], true⟩],
             chanBuf := some (parsedVideo exampleWorld "acct" exampleChannel
               ⟨"t1", "x", "2021-01-07T23:00:00Z"⟩ "" ⟨exampleNow - hour⟩),
             wg := 0, doneClosed := true, buckets := [("acct", [])], isDone := true,
             panics := [], crashed := false } ∧
    (runSteps
        (startPipeline ["acct"]
          [fetch exampleWorld "acct" exampleChannel exampleCutoff 5 false])
        [.send 0, .ret 0, .close, .takeDone]).map collectedCount = some 0 ∧
    ∀ (accounts : List String) (runs : List FetchRun) (acts : List Action) (p : Pipeline),
      runSteps (startPipeline accounts runs) acts = some p → p.isDone = true →
      collectedCount p + bufferedCount p = (runs.map (fun r => r.sent.length)).sum ∧
        bufferedCount p ≤ 1 := by
  refine ⟨by decide, by decide, by decide, ?_⟩
  intro accounts runs acts p hrun hdone
  have hcons := runSteps_conserves acts hrun
  have hpend := pendingCount_eq_zero_of_isDone
    (runSteps_consistent acts hrun (startPipeline_consistent accounts runs)) hdone
  rw [startPipeline_counts, hpend] at hcons
  refine ⟨by omega, ?_⟩
  unfold bufferedCount
  split <;> omega

/-! ## The claims about the ranking -/

/-- C5. Whatever `sort.Sort` leaves in a bucket is a permutation of the
videos collected in it, ordered by descending timestamp: no video is followed
directly by a more recent one, and of two videos with distinct timestamps the
more recent one comes first. Such a result exists for every bucket. -/
theorem ranking_is_descending_permutation (s t : youtubeVideoSlice)
    (h : SortOutcome s t) :
    t.Perm s ∧
      (∀ (i : Nat) (hi : i + 1 < t.length),
        t[i + 1].timestamp.After t[i].timestamp = false) ∧
      (∀ (i j : Nat) (_ : i < j) (hj : j < t.length),
        t[i].timestamp ≠ t[j].timestamp → t[i].timestamp.After t[j].timestamp = true) ∧
      ∃ t', SortOutcome s t' := by
  obtain ⟨ops, hops, hsorted⟩ := h
  have hpw := (IsSorted_iff_pairwise t).mp hsorted
  rw [List.pairwise_iff_getElem] at hpw
  refine ⟨applySwaps_perm ops hops, ?_, ?_, exists_sortOutcome s⟩
  · intro i hi
    have := hpw i (i + 1) (by omega) hi (by omega)
    simp only [Time.After, decide_eq_false_iff_not, not_lt]
    exact this
  · intro i j hij hj hne
    have := hpw i j (by omega) hj hij
    simp only [Time.After, decide_eq_true_eq]
    have hne' : t[i].timestamp.nanos ≠ t[j].timestamp.nanos := by
      intro heq
      apply hne
      cases hti : t[i].timestamp
      cases htj : t[j].timestamp
      simp only [hti, htj] at heq
      simp [heq]
    omega

/-- C5 at three videos collected oldest first: `Swap(0, 2)` ranks them. -/
theorem ranking_is_descending_permutation_witness :
    SortOutcome [exampleVideo "old" 10, exampleVideo "mid" 20, exampleVideo "new" 30]
        [exampleVideo "new" 30, exampleVideo "mid" 20, exampleVideo "old" 10] ∧
      List.Perm [exampleVideo "new" 30, exampleVideo "mid" 20, exampleVideo "old" 10]
        [exampleVideo "old" 10, exampleVideo "mid" 20, exampleVideo "new" 30] :=
  ⟨⟨[(0, 2)], by decide, by decide⟩,
   (ranking_is_descending_permutation _ _ ⟨[(0, 2)], by decide, by decide⟩).1⟩

/-- C10, as stated, fails. The thirteen videos of `ranked13` are ranked, and
`sort.Sort` may leave them as they are; ranked again by the calls
`Swap(0, 6)`, `Swap(0, 7)`, `Swap(6, 0)` they come out ranked with the two
videos that share a timestamp exchanged. -/
theorem reranking_can_exchange_ties :
    SortOutcome ranked13 ranked13 ∧ SortOutcome ranked13 reranked13 ∧
      reranked13 ≠ ranked13 :=
  ⟨⟨[], by decide, by decide⟩, ⟨[(0, 6), (0, 7), (6, 0)], by decide, by decide⟩, by decide⟩

/-- C10, amended. Ranking an already ranked list again yields a list with the
same timestamps position by position, that is the same sequence up to the
order of videos with equal timestamps; when no two videos share a timestamp
it yields the same sequence, element for element. -/
theorem reranking_keeps_order_up_to_ties (s t u : youtubeVideoSlice)
    (hs : SortOutcome s t) (hu : SortOutcome t u) :
    u.map (fun v => v.timestamp) = t.map (fun v => v.timestamp) ∧
      ((t.map (fun v => v.timestamp)).Nodup → u = t) := by
  obtain ⟨_, _, ht⟩ := hs
  obtain ⟨ops, hops, hsu⟩ := hu
  exact ranked_perm_unique (applySwaps_perm ops hops) ht hsu

/-- C10, amended, at the thirteen ranked videos: ranked again with the tie
exchanged, they show the same timestamps position by position. -/
theorem reranking_keeps_order_up_to_ties_witness :
    SortOutcome ranked13 ranked13 ∧ SortOutcome ranked13 reranked13 ∧
      reranked13.map (fun v => v.timestamp) = ranked13.map (fun v => v.timestamp) :=
  ⟨⟨[], by decide, by decide⟩, ⟨[(0, 6), (0, 7), (6, 0)], by decide, by decide⟩,
   (reranking_keeps_order_up_to_ties ranked13 ranked13 reranked13
      ⟨[], by decide, by decide⟩ ⟨[(0, 6), (0, 7), (6, 0)], by decide, by decide⟩).1⟩

end YoutubeFeeds
